import Mathlib

/-!
Verification of the ObscuraProto secure-session protocol.

The repository's visible sources are the two pybind11 binding translation
units (`src/ObscuraProto/bindings.cpp`, `src/pyObscuraProto/bindings.cpp`).
The core library headers (`packet.hpp`, `session.hpp`, `crypto.hpp`,
`version.hpp`) are not part of the visible sources, so the corresponding
definitions below are modelled from the specification and are marked as
such in their doc comments.  The `read_int` / `read_uint` dispatch lambdas
and the `PySessionWrapper` callback plumbing are translated directly from
the binding sources.

Byte vectors are `List Nat` with each byte below 256 where it matters.
Machine integers are `Nat` / `Int` with explicit `% 2^w` arithmetic.
IEEE-754 float parameters are carried as their raw little-endian bit
patterns (a `Nat`), since the codec itself only moves bytes; the
bits-to-real interpretation is outside the byte-level contract.
-/

namespace ObscuraProto

/-- A wire byte string: a list of byte values. -/
abbrev Bytes := List Nat

/-- Little-endian decoding of a byte list into a natural number. -/
def leToNat (l : Bytes) : Nat := l.foldr (fun b acc => b + 256 * acc) 0

/-- Little-endian encoding of `n` into exactly `w` bytes (truncating). -/
def leBytes : Nat → Nat → Bytes
  | 0, _ => []
  | w + 1, n => n % 256 :: leBytes w (n / 256)

/-- Big-endian decoding of a byte list into a natural number. -/
def beToNat (l : Bytes) : Nat := l.foldl (fun acc b => acc * 256 + b) 0

/-- Big-endian 16-bit encoding. -/
def u16be (n : Nat) : Bytes := [n / 256 % 256, n % 256]

/-- Big-endian 64-bit encoding. -/
def u64be (n : Nat) : Bytes :=
  [n / 2 ^ 56 % 256, n / 2 ^ 48 % 256, n / 2 ^ 40 % 256, n / 2 ^ 32 % 256,
   n / 2 ^ 24 % 256, n / 2 ^ 16 % 256, n / 2 ^ 8 % 256, n % 256]

/-- Little-endian 32-bit encoding (the parameter-record length prefix). -/
def u32le (n : Nat) : Bytes := leBytes 4 n

/-- Error taxonomy of the protocol (spec section 7). -/
inductive Err where
  | MalformedMessage
  | VersionMismatch
  | AuthFailure
  | ReplayOrReorder
  | CounterExhausted
  | Truncated
  | WidthMismatch
  | InvalidBool
  | InvalidUtf8
  | InvalidState
deriving DecidableEq, Repr

/-- `Payload { op_code : u16, parameters : bytes }` from `packet.hpp`. -/
structure Payload where
  op_code : Nat
  parameters : Bytes
deriving DecidableEq, Repr

/-- Modelled from the spec: `Payload::serialize` from the missing
`packet.hpp` — big-endian `u16` opcode followed by the raw parameter
bytes. -/
def Payload.serialize (p : Payload) : Bytes :=
  u16be p.op_code ++ p.parameters

/-- Modelled from the spec: `Payload::deserialize` from the missing
`packet.hpp` — reads the big-endian opcode and captures the remaining
bytes as the opaque parameter tail. -/
def Payload.deserialize (bs : Bytes) : Except Err Payload :=
  if bs.length < 2 then .error .MalformedMessage
  else .ok ⟨beToNat (bs.take 2), bs.drop 2⟩

/-- Whether `b` is a UTF-8 continuation byte. -/
def isCont (b : Nat) : Bool := 0x80 ≤ b && b ≤ 0xBF

/-- Modelled from the spec: UTF-8 validity of a byte sequence, used by the
string decoding path of the missing `packet.hpp` (RFC 3629 table). -/
def validUtf8 : Bytes → Bool
  | [] => true
  | b :: rest =>
    if b ≤ 0x7F then validUtf8 rest
    else if 0xC2 ≤ b && b ≤ 0xDF then
      match rest with
      | c1 :: r => isCont c1 && validUtf8 r
      | _ => false
    else if b = 0xE0 then
      match rest with
      | c1 :: c2 :: r => (0xA0 ≤ c1 && c1 ≤ 0xBF) && isCont c2 && validUtf8 r
      | _ => false
    else if (0xE1 ≤ b && b ≤ 0xEC) || b = 0xEE || b = 0xEF then
      match rest with
      | c1 :: c2 :: r => isCont c1 && isCont c2 && validUtf8 r
      | _ => false
    else if b = 0xED then
      match rest with
      | c1 :: c2 :: r => (0x80 ≤ c1 && c1 ≤ 0x9F) && isCont c2 && validUtf8 r
      | _ => false
    else if b = 0xF0 then
      match rest with
      | c1 :: c2 :: c3 :: r =>
        (0x90 ≤ c1 && c1 ≤ 0xBF) && isCont c2 && isCont c3 && validUtf8 r
      | _ => false
    else if 0xF1 ≤ b && b ≤ 0xF3 then
      match rest with
      | c1 :: c2 :: c3 :: r => isCont c1 && isCont c2 && isCont c3 && validUtf8 r
      | _ => false
    else if b = 0xF4 then
      match rest with
      | c1 :: c2 :: c3 :: r =>
        (0x80 ≤ c1 && c1 ≤ 0x8F) && isCont c2 && isCont c3 && validUtf8 r
      | _ => false
    else false

/-- A typed parameter value, mirroring the `add_param` overload set of the
builder: raw bytes, UTF-8 string (carried as its byte encoding), bool,
fixed-width signed and unsigned integers, and IEEE-754 floats carried as
their raw bit patterns. -/
inductive ParamValue where
  | pbytes (b : Bytes)
  | pstring (s : Bytes)
  | pbool (b : Bool)
  | pint (w : Nat) (v : Int)
  | puint (w : Nat) (v : Nat)
  | pf32 (bits : Nat)
  | pf64 (bits : Nat)
deriving DecidableEq, Repr

/-- The seven reader entry points exposed by the bindings:
`read_bytes`, `read_string`, `read_bool`, `read_int`, `read_uint`,
`read_float`, `read_double`. -/
inductive ParamTy where
  | tbytes | tstring | tbool | tint | tuint | tfloat | tdouble
deriving DecidableEq, Repr

/-- The reader call that matches the type of a parameter value. -/
def tyOf : ParamValue → ParamTy
  | .pbytes _ => .tbytes
  | .pstring _ => .tstring
  | .pbool _ => .tbool
  | .pint _ _ => .tint
  | .puint _ _ => .tuint
  | .pf32 _ => .tfloat
  | .pf64 _ => .tdouble

/-- Modelled from the spec: one parameter record as emitted by the
`add_param` overloads of the missing `packet.hpp` — a `u32` length prefix
followed by the value bytes (integers and float bits little-endian, bool a
single `0x00`/`0x01` byte). -/
def encodeParam : ParamValue → Bytes
  | .pbytes b => u32le b.length ++ b
  | .pstring s => u32le s.length ++ s
  | .pbool b => u32le 1 ++ [if b then 1 else 0]
  | .pint w v => u32le w ++ leBytes w (v % ((2 : Int) ^ (8 * w))).toNat
  | .puint w v => u32le w ++ leBytes w v
  | .pf32 bits => u32le 4 ++ leBytes 4 bits
  | .pf64 bits => u32le 8 ++ leBytes 8 bits

/-- Well-formedness of a typed parameter: widths drawn from the overload
set, integer values in range for their width, float bit patterns of the
right size, record bodies that fit the `u32` length prefix, and valid
UTF-8 for strings. -/
def wfParam : ParamValue → Bool
  | .pbytes b => decide (b.length < 2 ^ 32)
  | .pstring s => decide (s.length < 2 ^ 32) && validUtf8 s
  | .pbool _ => true
  | .pint w v =>
      (decide (w = 1) || decide (w = 2) || decide (w = 4) || decide (w = 8)) &&
      decide (-((2 : Int) ^ (8 * w - 1)) ≤ v) && decide (v < (2 : Int) ^ (8 * w - 1))
  | .puint w v =>
      (decide (w = 1) || decide (w = 2) || decide (w = 4) || decide (w = 8)) &&
      decide (v < 2 ^ (8 * w))
  | .pf32 bits => decide (bits < 2 ^ 32)
  | .pf64 bits => decide (bits < 2 ^ 64)

/-- `PayloadBuilder` from `packet.hpp`: opcode plus accumulated records. -/
structure PayloadBuilder where
  op_code : Nat
  parameters : Bytes
deriving DecidableEq, Repr

/-- The builder constructor: `PayloadBuilder(op)`. -/
def PayloadBuilder.init (op : Nat) : PayloadBuilder := ⟨op, []⟩

/-- Modelled from the spec: each `add_param` overload appends one
self-describing parameter record. -/
def PayloadBuilder.add_param (b : PayloadBuilder) (x : ParamValue) : PayloadBuilder :=
  ⟨b.op_code, b.parameters ++ encodeParam x⟩

/-- `build()` returns the accumulated `Payload`. -/
def PayloadBuilder.build (b : PayloadBuilder) : Payload :=
  ⟨b.op_code, b.parameters⟩

/-- Building a payload by calling `add_param` once per element, in order. -/
def buildPayload (op : Nat) (xs : List ParamValue) : Payload :=
  (xs.foldl PayloadBuilder.add_param (PayloadBuilder.init op)).build

/-- `PayloadReader`: a cursor into `Payload.parameters`, represented by
the unread suffix. -/
structure PayloadReader where
  rest : Bytes
deriving DecidableEq, Repr

/-- A reader positioned at the start of a payload's parameters. -/
def PayloadReader.init (p : Payload) : PayloadReader := ⟨p.parameters⟩

/-- `has_more()`: the cursor has not reached the end. -/
def has_more (r : PayloadReader) : Bool := !r.rest.isEmpty

/-- Modelled from the spec: `peek_next_param_size()` returns the `u32`
length field of the next record without advancing; `Truncated` when fewer
than four bytes remain. -/
def peek_next_param_size (r : PayloadReader) : Except Err Nat :=
  if 4 ≤ r.rest.length then .ok (leToNat (r.rest.take 4)) else .error .Truncated

/-- Modelled from the spec: consume one length-prefixed record, returning
its value bytes and the advanced reader; errors leave the reader at its
old position. -/
def readRecord (r : PayloadReader) : Except Err Bytes × PayloadReader :=
  match peek_next_param_size r with
  | .error e => (.error e, r)
  | .ok len =>
    if 4 + len ≤ r.rest.length then
      (.ok ((r.rest.drop 4).take len), ⟨(r.rest.drop 4).drop len⟩)
    else (.error .Truncated, r)

/-- `read_bytes` (`read_param<byte_vector>`): any length is accepted. -/
def read_bytes (r : PayloadReader) : Except Err Bytes × PayloadReader :=
  readRecord r

/-- Modelled from the spec: `read_string` (`read_param<std::string>`)
returns the record bytes after UTF-8 validation, `InvalidUtf8` otherwise. -/
def read_string (r : PayloadReader) : Except Err Bytes × PayloadReader :=
  match readRecord r with
  | (.ok v, r') => if validUtf8 v then (.ok v, r') else (.error .InvalidUtf8, r)
  | (.error e, _) => (.error e, r)

/-- Modelled from the spec: `read_bool` (`read_param<bool>`) requires a
one-byte record whose value is `0x00` or `0x01`. -/
def read_bool (r : PayloadReader) : Except Err Bool × PayloadReader :=
  match peek_next_param_size r with
  | .error e => (.error e, r)
  | .ok len =>
    if len = 1 then
      match readRecord r with
      | (.ok [0], r') => (.ok false, r')
      | (.ok [1], r') => (.ok true, r')
      | (.ok _, _) => (.error .InvalidBool, r)
      | (.error e, _) => (.error e, r)
    else (.error .WidthMismatch, r)

/-- Two's-complement interpretation of a `w`-byte little-endian value. -/
def sdecode (w n : Nat) : Int :=
  if n < 2 ^ (8 * w - 1) then (n : Int) else (n : Int) - 2 ^ (8 * w)

/-- Modelled from the spec: `read_param<intN_t>` — `WidthMismatch` unless
the record length equals the type width, then little-endian
two's-complement decoding. -/
def read_param_sint (w : Nat) (r : PayloadReader) : Except Err Int × PayloadReader :=
  match peek_next_param_size r with
  | .error e => (.error e, r)
  | .ok len =>
    if len = w then
      match readRecord r with
      | (.ok v, r') => (.ok (sdecode w (leToNat v)), r')
      | (.error e, _) => (.error e, r)
    else (.error .WidthMismatch, r)

/-- Modelled from the spec: `read_param<uintN_t>` — `WidthMismatch` unless
the record length equals the type width, then little-endian unsigned
decoding. -/
def read_param_uint (w : Nat) (r : PayloadReader) : Except Err Nat × PayloadReader :=
  match peek_next_param_size r with
  | .error e => (.error e, r)
  | .ok len =>
    if len = w then
      match readRecord r with
      | (.ok v, r') => (.ok (leToNat v), r')
      | (.error e, _) => (.error e, r)
    else (.error .WidthMismatch, r)

/-- `read_int` from `ObscuraProto/bindings.cpp` lines 191-205: peek the
record size, dispatch to the signed read of that width for 1/2/4/8, and
fail on any other size.  The `int64_t` return is the sign-extended value. -/
def read_int (r : PayloadReader) : Except Err Int × PayloadReader :=
  match peek_next_param_size r with
  | .error e => (.error e, r)
  | .ok size =>
    if size = 1 then read_param_sint 1 r
    else if size = 2 then read_param_sint 2 r
    else if size = 4 then read_param_sint 4 r
    else if size = 8 then read_param_sint 8 r
    else (.error .WidthMismatch, r)

/-- `read_uint` from `ObscuraProto/bindings.cpp` lines 206-220: peek the
record size, dispatch to the unsigned read of that width for 1/2/4/8, and
fail on any other size.  The `uint64_t` return is the zero-extended value. -/
def read_uint (r : PayloadReader) : Except Err Nat × PayloadReader :=
  match peek_next_param_size r with
  | .error e => (.error e, r)
  | .ok size =>
    if size = 1 then read_param_uint 1 r
    else if size = 2 then read_param_uint 2 r
    else if size = 4 then read_param_uint 4 r
    else if size = 8 then read_param_uint 8 r
    else (.error .WidthMismatch, r)

/-- `read_float` as bound in the sources: `read_param<float>`, i.e. a
strict four-byte read returning the binary32 bit pattern. -/
def read_float (r : PayloadReader) : Except Err Nat × PayloadReader :=
  match peek_next_param_size r with
  | .error e => (.error e, r)
  | .ok len =>
    if len = 4 then
      match readRecord r with
      | (.ok v, r') => (.ok (leToNat v), r')
      | (.error e, _) => (.error e, r)
    else (.error .WidthMismatch, r)

/-- `read_double` as bound in the sources: `read_param<double>`, i.e. a
strict eight-byte read returning the binary64 bit pattern. -/
def read_double (r : PayloadReader) : Except Err Nat × PayloadReader :=
  match peek_next_param_size r with
  | .error e => (.error e, r)
  | .ok len =>
    if len = 8 then
      match readRecord r with
      | (.ok v, r') => (.ok (leToNat v), r')
      | (.error e, _) => (.error e, r)
    else (.error .WidthMismatch, r)

/-- Issue the reader call matching a parameter type and repackage the
result as a `ParamValue` (integer widths recovered from the peeked size,
exactly as the width-dispatching bindings observe them). -/
def readTyped (t : ParamTy) (r : PayloadReader) : Except Err ParamValue × PayloadReader :=
  match t with
  | .tbytes =>
    match read_bytes r with
    | (.ok v, r') => (.ok (.pbytes v), r')
    | (.error e, r') => (.error e, r')
  | .tstring =>
    match read_string r with
    | (.ok v, r') => (.ok (.pstring v), r')
    | (.error e, r') => (.error e, r')
  | .tbool =>
    match read_bool r with
    | (.ok v, r') => (.ok (.pbool v), r')
    | (.error e, r') => (.error e, r')
  | .tint =>
    match peek_next_param_size r with
    | .error e => (.error e, r)
    | .ok w =>
      match read_int r with
      | (.ok v, r') => (.ok (.pint w v), r')
      | (.error e, r') => (.error e, r')
  | .tuint =>
    match peek_next_param_size r with
    | .error e => (.error e, r)
    | .ok w =>
      match read_uint r with
      | (.ok v, r') => (.ok (.puint w v), r')
      | (.error e, r') => (.error e, r')
  | .tfloat =>
    match read_float r with
    | (.ok v, r') => (.ok (.pf32 v), r')
    | (.error e, r') => (.error e, r')
  | .tdouble =>
    match read_double r with
    | (.ok v, r') => (.ok (.pf64 v), r')
    | (.error e, r') => (.error e, r')

/-- Read a sequence of parameters with the given reader calls, in order. -/
def readAll (r : PayloadReader) : List ParamTy → Except Err (List ParamValue) × PayloadReader
  | [] => (.ok [], r)
  | t :: ts =>
    match readTyped t r with
    | (.ok v, r') =>
      match readAll r' ts with
      | (.ok vs, r'') => (.ok (v :: vs), r'')
      | (.error e, r'') => (.error e, r'')
    | (.error e, r') => (.error e, r')

/-! ## Version negotiation -/

/-- Modelled from the spec: `VersionNegotiator::negotiate` from the
missing `version.hpp` — the maximum version present in both sequences, or
`none` when the intersection is empty (recursive maximum over the common
elements). -/
def negotiate : List Nat → List Nat → Option Nat
  | [], _ => none
  | v :: tail, server =>
    match negotiate tail server with
    | none => if v ∈ server then some v else none
    | some b => if v ∈ server then some (max v b) else some b

/-! ## Crypto primitives

Modelled from the spec: `crypto.hpp` is not among the visible sources and
the spec gives only the behavioral contract of the primitive suite
(section 4.1).  The model below is a symbolic stand-in satisfying that
contract: public-key derivation is an injective transformation, the
key-exchange shared secret is symmetric in the two parties, key derivation
splits it into two direction-labelled keys, signatures are deterministic
values checked by recomputation, and the AEAD is a keystream cipher with a
16-byte recomputable tag, invertible at matching counter and key. -/

/-- Modelled from the spec: public half derived from a private key
(symbolic stand-in for X25519/Ed25519 public-key derivation). -/
def pubOf (sk : Bytes) : Bytes := sk.reverse

/-- Modelled from the spec: the DH shared secret, symmetric in the two
ephemeral halves by construction. -/
def dhShared (sk pk : Bytes) : Nat := sk.sum + pk.sum

/-- Modelled from the spec: the KDF splitting the shared secret into a
direction-labelled 32-byte key. -/
def kdf (secret label : Nat) : Bytes := List.replicate 32 ((secret + label) % 256)

/-- A direction-split pair of 32-byte session keys. -/
structure SessionKeys where
  rx : Bytes
  tx : Bytes
deriving DecidableEq, Repr

/-- A paired public and private key. -/
structure KeyPair where
  publicKey : Bytes
  privateKey : Bytes
deriving DecidableEq, Repr

/-- Modelled from the spec: the deterministic 64-byte signature value over
a message for a given public key. -/
def sigOf (msg pk : Bytes) : Bytes :=
  List.replicate 64 ((msg.sum + pk.sum) % 256)

/-- Modelled from the spec: `Crypto::sign`. -/
def Crypto.sign (msg sk : Bytes) : Bytes := sigOf msg (pubOf sk)

/-- Modelled from the spec: `Crypto::verify` checks the signature against
the message and public key. -/
def Crypto.verify (sig msg pk : Bytes) : Bool := sig = sigOf msg pk

/-- Modelled from the spec: `Crypto::client_compute_session_keys` — the
client labels the derived keys `(rx, tx) = (server-to-client,
client-to-server)`. -/
def Crypto.client_compute_session_keys (client_kx : KeyPair) (server_eph_pk : Bytes) :
    SessionKeys :=
  let s := dhShared client_kx.privateKey server_eph_pk
  ⟨kdf s 2, kdf s 1⟩

/-- Modelled from the spec: `Crypto::server_compute_session_keys` — the
server labels the derived keys `(rx, tx) = (client-to-server,
server-to-client)`. -/
def Crypto.server_compute_session_keys (server_kx : KeyPair) (client_eph_pk : Bytes) :
    SessionKeys :=
  let s := dhShared server_kx.privateKey client_eph_pk
  ⟨kdf s 1, kdf s 2⟩

/-- Keystream byte `i` for a given key and record counter. -/
def ks (key : Bytes) (ctr i : Nat) : Nat := (key.sum + ctr + i) % 256

/-- Apply the keystream to a plaintext starting at stream index `i`. -/
def xorStream (key : Bytes) (ctr : Nat) : Nat → Bytes → Bytes
  | _, [] => []
  | i, b :: bs => (b + ks key ctr i) % 256 :: xorStream key ctr (i + 1) bs

/-- Invert the keystream starting at stream index `i`. -/
def unxorStream (key : Bytes) (ctr : Nat) : Nat → Bytes → Bytes
  | _, [] => []
  | i, b :: bs => (b + 256 - ks key ctr i) % 256 :: unxorStream key ctr (i + 1) bs

/-- The 16-byte authentication tag over key, counter and plaintext. -/
def tagOf (key : Bytes) (ctr : Nat) (pt : Bytes) : Bytes :=
  List.replicate 16 ((key.sum + ctr + pt.sum + pt.length) % 256)

/-- Modelled from the spec: `Crypto::encrypt` — AEAD with the nonce fully
determined by the counter; the wire form is `ciphertext || tag`. -/
def Crypto.encrypt (pt : Bytes) (ctr : Nat) (key : Bytes) : Bytes :=
  xorStream key ctr 0 pt ++ tagOf key ctr pt

/-- Modelled from the spec: `Crypto::decrypt` — authenticated decryption,
`AuthFailure` on any tag mismatch. -/
def Crypto.decrypt (ct : Bytes) (ctr : Nat) (key : Bytes) : Except Err Bytes :=
  if 16 ≤ ct.length then
    if ct.drop (ct.length - 16) =
        tagOf key ctr (unxorStream key ctr 0 (ct.take (ct.length - 16))) then
      .ok (unxorStream key ctr 0 (ct.take (ct.length - 16)))
    else .error .AuthFailure
  else .error .AuthFailure

/-! ## Handshake messages -/

/-- `ClientHello { supported_versions, ephemeral_pk }`. -/
structure ClientHello where
  supported_versions : List Nat
  ephemeral_pk : Bytes
deriving DecidableEq, Repr

/-- `ServerHello { selected_version, ephemeral_pk, signature }`. -/
structure ServerHello where
  selected_version : Nat
  ephemeral_pk : Bytes
  signature : Bytes
deriving DecidableEq, Repr

/-- Modelled from the spec: `ClientHello::serialize` — big-endian `u16`
count, the versions big-endian, then the 32-byte ephemeral public key. -/
def ClientHello.serialize (ch : ClientHello) : Bytes :=
  u16be ch.supported_versions.length ++
    (ch.supported_versions.map u16be).flatten ++ ch.ephemeral_pk

/-- Decode `n` big-endian `u16` values, returning them with the unread
tail. -/
def readU16s : Nat → Bytes → Option (List Nat × Bytes)
  | 0, bs => some ([], bs)
  | k + 1, b0 :: b1 :: bs =>
    match readU16s k bs with
    | some (vs, tail) => some ((b0 * 256 + b1) :: vs, tail)
    | none => none
  | _ + 1, _ => none

/-- Modelled from the spec: `ClientHello::deserialize` — `MalformedMessage`
on truncation, trailing bytes, or a zero version count. -/
def ClientHello.deserialize (bs : Bytes) : Except Err ClientHello :=
  match bs with
  | b0 :: b1 :: tail =>
    let n := b0 * 256 + b1
    if n = 0 then .error .MalformedMessage
    else
      match readU16s n tail with
      | some (vs, tail2) =>
        if tail2.length = 32 then .ok ⟨vs, tail2⟩ else .error .MalformedMessage
      | none => .error .MalformedMessage
  | _ => .error .MalformedMessage

/-- Modelled from the spec: `ServerHello::serialize` — big-endian `u16`
selected version, 32-byte ephemeral public key, 64-byte signature. -/
def ServerHello.serialize (sh : ServerHello) : Bytes :=
  u16be sh.selected_version ++ sh.ephemeral_pk ++ sh.signature

/-- Modelled from the spec: `ServerHello::deserialize` — the input must be
exactly 98 bytes. -/
def ServerHello.deserialize (bs : Bytes) : Except Err ServerHello :=
  if bs.length = 98 then
    .ok ⟨beToNat (bs.take 2), (bs.drop 2).take 32, bs.drop 34⟩
  else .error .MalformedMessage

/-! ## Session -/

/-- The endpoint role. -/
inductive Role where
  | CLIENT
  | SERVER
deriving DecidableEq, Repr

/-- The handshake state machine phases (spec section 4.5). -/
inductive Phase where
  | INIT
  | AWAIT_SERVER_HELLO
  | ESTABLISHED
  | FAILED
deriving DecidableEq, Repr

/-- The protocol versions this build implements. -/
def SUPPORTED_VERSIONS : List Nat := [1]

/-- Modelled from the spec: the `Session` state of the missing
`session.hpp`. -/
structure Session where
  role : Role
  identity : KeyPair
  ephemeral : Option KeyPair
  selected_version : Option Nat
  session_keys : Option SessionKeys
  tx_counter : Nat
  rx_counter : Nat
  phase : Phase
deriving DecidableEq, Repr

/-- `Session(role, key_pair)`: store role and identity material. -/
def Session.create (role : Role) (kp : KeyPair) : Session :=
  { role := role, identity := kp, ephemeral := none, selected_version := none,
    session_keys := none, tx_counter := 0, rx_counter := 0, phase := .INIT }

/-- `is_handshake_complete()`. -/
def is_handshake_complete (s : Session) : Bool :=
  match s.phase with
  | .ESTABLISHED => true
  | _ => false

/-- Modelled from the spec: `Session::client_initiate_handshake` — from
`INIT`, adopt a fresh ephemeral pair (passed in, standing for the random
generation) and emit `ClientHello` with the supported versions.  Calling
it in any other phase is a sequencing error. -/
def client_initiate_handshake (s : Session) (eph : KeyPair) :
    Except Err ClientHello × Session :=
  match s.phase with
  | .INIT =>
    (.ok ⟨SUPPORTED_VERSIONS, eph.publicKey⟩,
     { s with ephemeral := some eph, phase := .AWAIT_SERVER_HELLO })
  | _ => (.error .InvalidState, s)

/-- Modelled from the spec: `Session::server_respond_to_handshake` — from
`INIT`, negotiate a version (`VersionMismatch` and `FAILED` if none),
adopt a fresh ephemeral pair, derive the session keys, sign the transcript
`client_pk || server_pk`, zero both counters and become `ESTABLISHED`. -/
def server_respond_to_handshake (s : Session) (ch : ClientHello) (eph : KeyPair) :
    Except Err ServerHello × Session :=
  match s.phase with
  | .INIT =>
    match negotiate ch.supported_versions SUPPORTED_VERSIONS with
    | none => (.error .VersionMismatch, { s with phase := .FAILED })
    | some v =>
      let keys := Crypto.server_compute_session_keys eph ch.ephemeral_pk
      let sig := Crypto.sign (ch.ephemeral_pk ++ eph.publicKey) s.identity.privateKey
      (.ok ⟨v, eph.publicKey, sig⟩,
       { s with ephemeral := some eph, selected_version := some v,
                session_keys := some keys, tx_counter := 0, rx_counter := 0,
                phase := .ESTABLISHED })
  | _ => (.error .InvalidState, s)

/-- Modelled from the spec: `Session::client_finalize_handshake` — from
`AWAIT_SERVER_HELLO`, check the selected version is supported
(`VersionMismatch`), verify the transcript signature against the trusted
server signing key (`AuthFailure`), derive the session keys, zero both
counters and become `ESTABLISHED`; failures are terminal. -/
def client_finalize_handshake (s : Session) (sh : ServerHello) :
    Except Err Unit × Session :=
  match s.phase with
  | .AWAIT_SERVER_HELLO =>
    match s.ephemeral with
    | none => (.error .InvalidState, { s with phase := .FAILED })
    | some ceph =>
      if SUPPORTED_VERSIONS.contains sh.selected_version then
        if Crypto.verify sh.signature (ceph.publicKey ++ sh.ephemeral_pk)
            s.identity.publicKey then
          let keys := Crypto.client_compute_session_keys ceph sh.ephemeral_pk
          (.ok (),
           { s with selected_version := some sh.selected_version,
                    session_keys := some keys, tx_counter := 0, rx_counter := 0,
                    phase := .ESTABLISHED })
        else (.error .AuthFailure, { s with phase := .FAILED })
      else (.error .VersionMismatch, { s with phase := .FAILED })
  | _ => (.error .InvalidState, s)

/-- Modelled from the spec: `Session::encrypt_payload` — requires a
completed handshake, frames `u64_be(tx_counter) || AEAD(payload bytes)`,
fails with `CounterExhausted` at the counter maximum, and increments the
counter on success.  Per the spec's testable properties (section 8), a
failed record operation leaves the session observable state unchanged. -/
def encrypt_payload (s : Session) (p : Payload) : Except Err Bytes × Session :=
  match s.phase with
  | .ESTABLISHED =>
    match s.session_keys with
    | none => (.error .InvalidState, s)
    | some keys =>
      if s.tx_counter + 1 < 2 ^ 64 then
        (.ok (u64be s.tx_counter ++ Crypto.encrypt p.serialize s.tx_counter keys.tx),
         { s with tx_counter := s.tx_counter + 1 })
      else (.error .CounterExhausted, s)
  | _ => (.error .InvalidState, s)

/-- Modelled from the spec: `Session::decrypt_packet` — requires a
completed handshake, parses `counter = u64_be(frame[0..8])`, requires
`counter == rx_counter` (strict, in-order, no windowing) else
`ReplayOrReorder`, AEAD-decrypts, deserializes the payload, and increments
`rx_counter` on success.  Per the spec's replay scenario (section 8), a
rejected frame leaves the session state unchanged so the next in-order
frame is still accepted. -/
def decrypt_packet (s : Session) (frame : Bytes) : Except Err Payload × Session :=
  match s.phase with
  | .ESTABLISHED =>
    if frame.length < 8 then (.error .MalformedMessage, s)
    else
      if beToNat (frame.take 8) = s.rx_counter then
        match s.session_keys with
        | none => (.error .InvalidState, s)
        | some keys =>
          match Crypto.decrypt (frame.drop 8) (beToNat (frame.take 8)) keys.rx with
          | .error e => (.error e, s)
          | .ok pt =>
            match Payload.deserialize pt with
            | .error e => (.error e, s)
            | .ok p => (.ok p, { s with rx_counter := s.rx_counter + 1 })
      else (.error .ReplayOrReorder, s)
  | _ => (.error .InvalidState, s)

/-- `get_selected_version()`. -/
def get_selected_version (s : Session) : Option Nat := s.selected_version

/-! ## The Python binding wrapper

Translated from `src/ObscuraProto/bindings.cpp` (`PySessionWrapper`).
Registered `py::function` callbacks are opaque to the protocol; they are
modelled as numeric tokens, and each wrapper operation reports the list of
callback tokens it invoked, in order. -/

/-- The state of a `PySessionWrapper`: the owned session plus the
registered callbacks (`set_on_handshake_complete`, `register_op_handler`,
`set_default_payload_handler`). -/
structure PySessionWrapper where
  session : Session
  on_handshake_complete : Option Nat
  default_payload_handler : Option Nat
  op_handlers : List (Nat × Nat)
deriving DecidableEq, Repr

/-- The `on_handshake_complete` invocation list for a registered callback. -/
def hsFired : Option Nat → List Nat
  | some h => [h]
  | none => []

/-- `op_handlers.find(op_code)` on the wrapper's handler map. -/
def findHandler (hs : List (Nat × Nat)) (op : Nat) : Option Nat :=
  match hs.find? (fun e => e.1 = op) with
  | some e => some e.2
  | none => none

/-- `PySessionWrapper::client_initiate_handshake`: run the session step
and serialize the resulting `ClientHello`. -/
def wrapper_client_initiate (w : PySessionWrapper) (eph : KeyPair) :
    Except Err Bytes × PySessionWrapper :=
  match client_initiate_handshake w.session eph with
  | (.ok ch, s') => (.ok ch.serialize, { w with session := s' })
  | (.error e, s') => (.error e, { w with session := s' })

/-- `PySessionWrapper::server_respond_to_handshake` (bindings lines
25-35): deserialize the `ClientHello`, run the session step, invoke
`on_handshake_complete` when the handshake is then complete and a callback
is registered, and return the serialized `ServerHello`.  The third
component lists the callback tokens invoked. -/
def wrapper_server_respond (w : PySessionWrapper) (chB : Bytes) (eph : KeyPair) :
    Except Err Bytes × PySessionWrapper × List Nat :=
  match ClientHello.deserialize chB with
  | .error e => (.error e, w, [])
  | .ok ch =>
    match server_respond_to_handshake w.session ch eph with
    | (.ok sh, s') =>
      (.ok sh.serialize, { w with session := s' },
       if is_handshake_complete s' then hsFired w.on_handshake_complete else [])
    | (.error e, s') => (.error e, { w with session := s' }, [])

/-- `PySessionWrapper::client_finalize_handshake` (bindings lines 37-46):
deserialize the `ServerHello`, run the session step, and invoke
`on_handshake_complete` when the handshake is then complete and a callback
is registered. -/
def wrapper_client_finalize (w : PySessionWrapper) (shB : Bytes) :
    Except Err Unit × PySessionWrapper × List Nat :=
  match ServerHello.deserialize shB with
  | .error e => (.error e, w, [])
  | .ok sh =>
    match client_finalize_handshake w.session sh with
    | (.ok _, s') =>
      (.ok (), { w with session := s' },
       if is_handshake_complete s' then hsFired w.on_handshake_complete else [])
    | (.error e, s') => (.error e, { w with session := s' }, [])

/-- `PySessionWrapper::encrypt_payload` (bindings lines 48-50): a direct
delegation to the session. -/
def wrapper_encrypt_payload (w : PySessionWrapper) (p : Payload) :
    Except Err Bytes × PySessionWrapper :=
  match encrypt_payload w.session p with
  | (.ok frame, s') => (.ok frame, { w with session := s' })
  | (.error e, s') => (.error e, { w with session := s' })

/-- `PySessionWrapper::decrypt_packet` (bindings lines 52-64): delegate to
the session, then on success invoke the handler registered for the
payload's opcode, or else the default handler if set, and return the
payload.  The third component lists the callback tokens invoked. -/
def wrapper_decrypt_packet (w : PySessionWrapper) (frame : Bytes) :
    Except Err Payload × PySessionWrapper × List Nat :=
  match decrypt_packet w.session frame with
  | (.ok p, s') =>
    let fired :=
      match findHandler w.op_handlers p.op_code with
      | some h => [h]
      | none =>
        match w.default_payload_handler with
        | some h => [h]
        | none => []
    (.ok p, { w with session := s' }, fired)
  | (.error e, s') => (.error e, { w with session := s' }, [])

/-! ## Derived and demonstration definitions -/

/-- Concrete parameter list exercising every reader call shape: a bool, a
32-bit signed integer, the string "hi", two raw bytes, and a binary64 bit
pattern. -/
def demoParams : List ParamValue :=
  [.pbool true, .pint 4 (-7), .pstring [104, 105], .pbytes [222, 173],
   .pf64 4615063718147915776]

/-- Equality of `Except` values is decidable componentwise. -/
instance instDecEqExcept {e a : Type} [DecidableEq e] [DecidableEq a] :
    DecidableEq (Except e a) := fun x y =>
  match x, y with
  | .ok u, .ok v =>
    if h : u = v then .isTrue (by rw [h]) else .isFalse (by intro c; injection c; tauto)
  | .error u, .error v =>
    if h : u = v then .isTrue (by rw [h]) else .isFalse (by intro c; injection c; tauto)
  | .ok _, .error _ => .isFalse (fun c => Except.noConfusion c)
  | .error _, .ok _ => .isFalse (fun c => Except.noConfusion c)

/-- A reader over a single two-byte record with value bytes `[1, 2]`. -/
def c7reader : PayloadReader := ⟨u32le 2 ++ [1, 2]⟩

/-- The client session after a completed handshake on the given key
material. -/
def clientHS (ssk cEsk sEsk : Bytes) : Session :=
  { role := .CLIENT, identity := ⟨pubOf ssk, []⟩, ephemeral := some ⟨pubOf cEsk, cEsk⟩,
    selected_version := some 1,
    session_keys := some (Crypto.client_compute_session_keys ⟨pubOf cEsk, cEsk⟩ (pubOf sEsk)),
    tx_counter := 0, rx_counter := 0, phase := .ESTABLISHED }

/-- The server session after a completed handshake on the given key
material. -/
def serverHS (ssk cEsk sEsk : Bytes) : Session :=
  { role := .SERVER, identity := ⟨pubOf ssk, ssk⟩, ephemeral := some ⟨pubOf sEsk, sEsk⟩,
    selected_version := some 1,
    session_keys := some (Crypto.server_compute_session_keys ⟨pubOf sEsk, sEsk⟩ (pubOf cEsk)),
    tx_counter := 0, rx_counter := 0, phase := .ESTABLISHED }

/-- A fresh client wrapper trusting the server signing public key
`pubOf ssk`, with arbitrary registered callbacks. -/
def cliW0 (ssk : Bytes) (cb d : Option Nat) (oh : List (Nat × Nat)) : PySessionWrapper :=
  ⟨Session.create .CLIENT ⟨pubOf ssk, []⟩, cb, d, oh⟩

/-- A fresh server wrapper owning the signing pair for `ssk`, with
arbitrary registered callbacks. -/
def srvW0 (ssk : Bytes) (cb d : Option Nat) (oh : List (Nat × Nat)) : PySessionWrapper :=
  ⟨Session.create .SERVER ⟨pubOf ssk, ssk⟩, cb, d, oh⟩

/-- The serialized `ClientHello` the client emits. -/
def chBytes (cEsk : Bytes) : Bytes := ClientHello.serialize ⟨[1], pubOf cEsk⟩

/-- The serialized `ServerHello` the server emits. -/
def shBytes (ssk cEsk sEsk : Bytes) : Bytes :=
  ServerHello.serialize ⟨1, pubOf sEsk, Crypto.sign (pubOf cEsk ++ pubOf sEsk) ssk⟩

/-- The client session between the two handshake messages. -/
def cliAwait (ssk cEsk : Bytes) : Session :=
  { Session.create .CLIENT ⟨pubOf ssk, []⟩ with
      ephemeral := some ⟨pubOf cEsk, cEsk⟩, phase := .AWAIT_SERVER_HELLO }

/-- Run `encrypt_payload` over a list of payloads, requiring every call to
succeed. -/
def encryptAll (s : Session) : List Payload → Option Session
  | [] => some s
  | p :: ps =>
    match encrypt_payload s p with
    | (.ok _, s') => encryptAll s' ps
    | (.error _, _) => none

/-- Run `decrypt_packet` over a list of frames, requiring every call to
succeed. -/
def decryptAll (s : Session) : List Bytes → Option Session
  | [] => some s
  | f :: fs =>
    match decrypt_packet s f with
    | (.ok _, s') => decryptAll s' fs
    | (.error _, _) => none

/-- A concrete 32-byte server signing private key. -/
def demoSsk : Bytes := List.replicate 32 7

/-- A concrete 32-byte client ephemeral private key. -/
def demoCEsk : Bytes := List.replicate 32 1

/-- A concrete 32-byte server ephemeral private key. -/
def demoSEsk : Bytes := List.replicate 32 2

/-- A concrete well-formed payload with opcode 2. -/
def demoPayload : Payload := ⟨2, [1, 2, 3]⟩

/-- A concrete 32-byte session key. -/
def demoKey : Bytes := List.replicate 32 3

/-- A concrete established session using `demoKey` in both directions. -/
def demoEstS : Session :=
  ⟨.SERVER, ⟨[], []⟩, none, some 1, some ⟨demoKey, demoKey⟩, 0, 0, .ESTABLISHED⟩

/-- The first record frame carrying `demoPayload` under `demoKey`. -/
def demoFrame : Bytes := u64be 0 ++ Crypto.encrypt demoPayload.serialize 0 demoKey

/-- An established wrapper with an opcode-2 handler registered as token 7. -/
def c9wrapper : PySessionWrapper := ⟨demoEstS, none, none, [(2, 7)]⟩

/-! ## Byte-level lemmas -/

theorem leToNat_nil : leToNat [] = 0 := rfl

theorem leToNat_cons (b : Nat) (l : Bytes) : leToNat (b :: l) = b + 256 * leToNat l := rfl

theorem length_leBytes (w n : Nat) : (leBytes w n).length = w := by
  induction w generalizing n with
  | zero => rfl
  | succ w ih => simp [leBytes, ih]

theorem leToNat_leBytes (w n : Nat) : leToNat (leBytes w n) = n % 2 ^ (8 * w) := by
  induction w generalizing n with
  | zero => simp [leBytes, leToNat, Nat.mod_one]
  | succ w ih =>
    have hpow : (2 : Nat) ^ (8 * (w + 1)) = 256 * 2 ^ (8 * w) := by ring
    rw [leBytes, leToNat_cons, ih, hpow, Nat.mod_mul]

theorem beToNat_u16be (n : Nat) (h : n < 2 ^ 16) : beToNat (u16be n) = n := by
  simp [beToNat, u16be]; omega

theorem beToNat_u64be (n : Nat) (h : n < 2 ^ 64) : beToNat (u64be n) = n := by
  simp [beToNat, u64be]; omega

theorem length_u16be (n : Nat) : (u16be n).length = 2 := rfl

theorem length_u64be (n : Nat) : (u64be n).length = 8 := rfl

theorem length_u32le (n : Nat) : (u32le n).length = 4 := length_leBytes 4 n

/-! ## Payload codec lemmas -/

theorem payload_deserialize_serialize (p : Payload) (hop : p.op_code < 2 ^ 16) :
    Payload.deserialize p.serialize = .ok p := by
  unfold Payload.serialize Payload.deserialize
  have hlen : (u16be p.op_code ++ p.parameters).length = 2 + p.parameters.length := by
    simp [u16be]; omega
  rw [if_neg (by omega)]
  have ht : (u16be p.op_code ++ p.parameters).take 2 = u16be p.op_code := by
    rw [show (2 : Nat) = (u16be p.op_code).length from rfl, List.take_left]
  have hd : (u16be p.op_code ++ p.parameters).drop 2 = p.parameters := by
    rw [show (2 : Nat) = (u16be p.op_code).length from rfl, List.drop_left]
  rw [ht, hd, beToNat_u16be _ hop]

theorem peek_encode (L : Nat) (tail : Bytes) (hL : L < 2 ^ 32) :
    peek_next_param_size ⟨u32le L ++ tail⟩ = .ok L := by
  unfold peek_next_param_size
  dsimp only
  have h4 : (u32le L ++ tail).length = 4 + tail.length := by simp [length_u32le]
  rw [if_pos (by omega)]
  have ht : (u32le L ++ tail).take 4 = u32le L := by
    rw [show (4 : Nat) = (u32le L).length from (length_u32le L).symm, List.take_left]
  rw [ht, u32le, leToNat_leBytes]
  congr 1
  omega

theorem readRecord_encode (v tail : Bytes) (hL : v.length < 2 ^ 32) :
    readRecord ⟨u32le v.length ++ (v ++ tail)⟩ = (.ok v, ⟨tail⟩) := by
  unfold readRecord
  rw [peek_encode _ _ hL]
  dsimp only
  have hlen : (u32le v.length ++ (v ++ tail)).length = 4 + (v.length + tail.length) := by
    simp [length_u32le]
  rw [if_pos (by omega)]
  have hd : (u32le v.length ++ (v ++ tail)).drop 4 = v ++ tail := by
    rw [show (4 : Nat) = (u32le v.length).length from (length_u32le _).symm, List.drop_left]
  rw [hd, List.take_left, List.drop_left]

theorem readRecord_encode' (L : Nat) (v tail : Bytes) (hv : v.length = L)
    (hL : L < 2 ^ 32) : readRecord ⟨u32le L ++ (v ++ tail)⟩ = (.ok v, ⟨tail⟩) := by
  subst hv; exact readRecord_encode v tail hL

theorem sdecode_encode (w : Nat) (hw : w = 1 ∨ w = 2 ∨ w = 4 ∨ w = 8) (v : Int)
    (h1 : -((2 : Int) ^ (8 * w - 1)) ≤ v) (h2 : v < (2 : Int) ^ (8 * w - 1)) :
    sdecode w ((v % ((2 : Int) ^ (8 * w))).toNat % 2 ^ (8 * w)) = v := by
  rcases hw with rfl | rfl | rfl | rfl <;>
    (simp only [sdecode]; norm_num at *; split <;> omega)

theorem read_param_sint_encode (w : Nat) (hw32 : w < 2 ^ 32) (n : Nat) (tail : Bytes) :
    read_param_sint w ⟨u32le w ++ (leBytes w n ++ tail)⟩ =
      (.ok (sdecode w (n % 2 ^ (8 * w))), ⟨tail⟩) := by
  unfold read_param_sint
  rw [peek_encode w _ hw32]
  dsimp only
  rw [if_pos rfl, readRecord_encode' _ _ _ (length_leBytes _ _) hw32]
  dsimp only
  rw [leToNat_leBytes]

theorem read_param_uint_encode (w : Nat) (hw32 : w < 2 ^ 32) (n : Nat) (tail : Bytes) :
    read_param_uint w ⟨u32le w ++ (leBytes w n ++ tail)⟩ =
      (.ok (n % 2 ^ (8 * w)), ⟨tail⟩) := by
  unfold read_param_uint
  rw [peek_encode w _ hw32]
  dsimp only
  rw [if_pos rfl, readRecord_encode' _ _ _ (length_leBytes _ _) hw32]
  dsimp only
  rw [leToNat_leBytes]

theorem read_int_encode (w : Nat) (hw : w = 1 ∨ w = 2 ∨ w = 4 ∨ w = 8) (n : Nat)
    (tail : Bytes) :
    read_int ⟨u32le w ++ (leBytes w n ++ tail)⟩ =
      (.ok (sdecode w (n % 2 ^ (8 * w))), ⟨tail⟩) := by
  have hw32 : w < 2 ^ 32 := by rcases hw with rfl | rfl | rfl | rfl <;> norm_num
  unfold read_int
  rw [peek_encode w _ hw32]
  dsimp only
  rcases hw with rfl | rfl | rfl | rfl
  · rw [if_pos rfl, read_param_sint_encode 1 (by norm_num)]
  · rw [if_neg (by decide), if_pos rfl, read_param_sint_encode 2 (by norm_num)]
  · rw [if_neg (by decide), if_neg (by decide), if_pos rfl,
        read_param_sint_encode 4 (by norm_num)]
  · rw [if_neg (by decide), if_neg (by decide), if_neg (by decide), if_pos rfl,
        read_param_sint_encode 8 (by norm_num)]

theorem read_uint_encode (w : Nat) (hw : w = 1 ∨ w = 2 ∨ w = 4 ∨ w = 8) (n : Nat)
    (tail : Bytes) :
    read_uint ⟨u32le w ++ (leBytes w n ++ tail)⟩ =
      (.ok (n % 2 ^ (8 * w)), ⟨tail⟩) := by
  have hw32 : w < 2 ^ 32 := by rcases hw with rfl | rfl | rfl | rfl <;> norm_num
  unfold read_uint
  rw [peek_encode w _ hw32]
  dsimp only
  rcases hw with rfl | rfl | rfl | rfl
  · rw [if_pos rfl, read_param_uint_encode 1 (by norm_num)]
  · rw [if_neg (by decide), if_pos rfl, read_param_uint_encode 2 (by norm_num)]
  · rw [if_neg (by decide), if_neg (by decide), if_pos rfl,
        read_param_uint_encode 4 (by norm_num)]
  · rw [if_neg (by decide), if_neg (by decide), if_neg (by decide), if_pos rfl,
        read_param_uint_encode 8 (by norm_num)]

theorem readTyped_encode (x : ParamValue) (tail : Bytes) (hwf : wfParam x = true) :
    readTyped (tyOf x) ⟨encodeParam x ++ tail⟩ = (.ok x, ⟨tail⟩) := by
  cases x with
  | pbytes b =>
    simp only [wfParam, decide_eq_true_eq] at hwf
    simp only [tyOf, readTyped, read_bytes, encodeParam, List.append_assoc]
    rw [readRecord_encode b tail hwf]
  | pstring s =>
    simp only [wfParam, Bool.and_eq_true, decide_eq_true_eq] at hwf
    simp only [tyOf, readTyped, read_string, encodeParam, List.append_assoc]
    rw [readRecord_encode s tail hwf.1]
    simp [hwf.2]
  | pbool b =>
    simp only [tyOf, readTyped, read_bool, encodeParam, List.append_assoc]
    rw [peek_encode 1 _ (by norm_num)]
    dsimp only
    rw [if_pos rfl]
    rw [readRecord_encode' 1 [if b then 1 else 0] tail (by cases b <;> rfl) (by norm_num)]
    cases b <;> simp
  | pint w v =>
    simp only [wfParam, Bool.and_eq_true, Bool.or_eq_true, decide_eq_true_eq] at hwf
    obtain ⟨⟨hw, h1⟩, h2⟩ := hwf
    have hw' : w = 1 ∨ w = 2 ∨ w = 4 ∨ w = 8 := by tauto
    have hw32 : w < 2 ^ 32 := by rcases hw' with rfl | rfl | rfl | rfl <;> norm_num
    simp only [tyOf, readTyped, encodeParam, List.append_assoc]
    rw [peek_encode w _ hw32]
    dsimp only
    rw [read_int_encode w hw']
    dsimp only
    rw [sdecode_encode w hw' v h1 h2]
  | puint w v =>
    simp only [wfParam, Bool.and_eq_true, Bool.or_eq_true, decide_eq_true_eq] at hwf
    obtain ⟨hw, h1⟩ := hwf
    have hw' : w = 1 ∨ w = 2 ∨ w = 4 ∨ w = 8 := by tauto
    have hw32 : w < 2 ^ 32 := by rcases hw' with rfl | rfl | rfl | rfl <;> norm_num
    simp only [tyOf, readTyped, encodeParam, List.append_assoc]
    rw [peek_encode w _ hw32]
    dsimp only
    rw [read_uint_encode w hw']
    dsimp only
    rw [Nat.mod_eq_of_lt h1]
  | pf32 bits =>
    simp only [wfParam, decide_eq_true_eq] at hwf
    simp only [tyOf, readTyped, encodeParam, List.append_assoc]
    unfold read_float
    rw [peek_encode 4 _ (by norm_num)]
    dsimp only
    rw [if_pos rfl]
    rw [readRecord_encode' _ _ _ (length_leBytes _ _) (by norm_num)]
    dsimp only
    rw [leToNat_leBytes]
    norm_num
    omega
  | pf64 bits =>
    simp only [wfParam, decide_eq_true_eq] at hwf
    simp only [tyOf, readTyped, encodeParam, List.append_assoc]
    unfold read_double
    rw [peek_encode 8 _ (by norm_num)]
    dsimp only
    rw [if_pos rfl]
    rw [readRecord_encode' _ _ _ (length_leBytes _ _) (by norm_num)]
    dsimp only
    rw [leToNat_leBytes]
    norm_num
    omega

theorem readAll_encode (xs : List ParamValue) (tail : Bytes)
    (hwf : ∀ x ∈ xs, wfParam x = true) :
    readAll ⟨(xs.map encodeParam).flatten ++ tail⟩ (xs.map tyOf) = (.ok xs, ⟨tail⟩) := by
  induction xs generalizing tail with
  | nil => simp [readAll]
  | cons x t ih =>
    simp only [List.map_cons, List.flatten_cons, List.append_assoc, readAll]
    rw [readTyped_encode x _ (hwf x (by simp))]
    dsimp only
    rw [ih _ (fun y hy => hwf y (by simp [hy]))]

theorem buildPayload_eq (op : Nat) (xs : List ParamValue) :
    buildPayload op xs = ⟨op, (xs.map encodeParam).flatten⟩ := by
  have h : ∀ acc, ((xs.foldl PayloadBuilder.add_param ⟨op, acc⟩) : PayloadBuilder) =
      ⟨op, acc ++ (xs.map encodeParam).flatten⟩ := by
    induction xs with
    | nil => intro acc; simp
    | cons x t ih =>
      intro acc
      simp only [List.foldl_cons, PayloadBuilder.add_param]
      rw [ih]
      simp [List.append_assoc]
  simp [buildPayload, PayloadBuilder.init, PayloadBuilder.build, h []]

/-- C2: building a payload with `PayloadBuilder(o)` and one `add_param`
call per element of `xs` in order, serializing it, deserializing the bytes
with `Payload.deserialize`, and reading the parameters back in order with
the type-matching reader calls yields exactly the opcode `o` and the
original values `xs`, with the reader ending exactly at the end of the
parameter area. -/
theorem payload_codec_roundtrip (op : Nat) (xs : List ParamValue)
    (hop : op < 2 ^ 16) (hwf : ∀ x ∈ xs, wfParam x = true) :
    Payload.deserialize (buildPayload op xs).serialize = .ok (buildPayload op xs) ∧
    (buildPayload op xs).op_code = op ∧
    readAll (PayloadReader.init (buildPayload op xs)) (xs.map tyOf) = (.ok xs, ⟨[]⟩) := by
  have hb := buildPayload_eq op xs
  refine ⟨payload_deserialize_serialize _ (by rw [hb]; exact hop), by rw [hb], ?_⟩
  rw [hb]
  have h := readAll_encode xs [] hwf
  simpa [PayloadReader.init] using h

/-- Witness for C2 at opcode `0x42` and `demoParams`. -/
theorem payload_codec_roundtrip_witness :
    Payload.deserialize (buildPayload 66 demoParams).serialize =
        .ok (buildPayload 66 demoParams) ∧
    (buildPayload 66 demoParams).op_code = 66 ∧
    readAll (PayloadReader.init (buildPayload 66 demoParams)) (demoParams.map tyOf) =
        (.ok demoParams, ⟨[]⟩) :=
  payload_codec_roundtrip 66 demoParams (by norm_num) (by decide)

theorem readRecord_spec (r : PayloadReader) (L : Nat)
    (hpeek : peek_next_param_size r = .ok L) (hlen : 4 + L ≤ r.rest.length) :
    readRecord r = (.ok ((r.rest.drop 4).take L), ⟨(r.rest.drop 4).drop L⟩) := by
  unfold readRecord
  rw [hpeek]
  dsimp only
  rw [if_pos hlen]

theorem read_param_sint_spec (w : Nat) (r : PayloadReader)
    (hpeek : peek_next_param_size r = .ok w) (hlen : 4 + w ≤ r.rest.length) :
    read_param_sint w r =
      (.ok (sdecode w (leToNat ((r.rest.drop 4).take w))), ⟨(r.rest.drop 4).drop w⟩) := by
  unfold read_param_sint
  rw [hpeek]
  dsimp only
  rw [if_pos rfl, readRecord_spec r w hpeek hlen]

theorem read_param_uint_spec (w : Nat) (r : PayloadReader)
    (hpeek : peek_next_param_size r = .ok w) (hlen : 4 + w ≤ r.rest.length) :
    read_param_uint w r =
      (.ok (leToNat ((r.rest.drop 4).take w)), ⟨(r.rest.drop 4).drop w⟩) := by
  unfold read_param_uint
  rw [hpeek]
  dsimp only
  rw [if_pos rfl, readRecord_spec r w hpeek hlen]

/-- C7: when the next record's length field is `L`, `read_int` and
`read_uint` dispatch on the peeked size: for `L` outside `{1,2,4,8}` both
fail with `WidthMismatch` leaving the reader unmoved, and for `L` in
`{1,2,4,8}` (with the record complete) they decode the record body as a
little-endian signed (respectively unsigned) integer of width `L`,
returned as its numeric value — the widening to 64 bits preserves it. -/
theorem read_int_uint_width_dispatch (r : PayloadReader) (L : Nat)
    (hpeek : peek_next_param_size r = .ok L) :
    (L ∉ ([1, 2, 4, 8] : List Nat) →
      read_int r = (.error .WidthMismatch, r) ∧
      read_uint r = (.error .WidthMismatch, r)) ∧
    (L ∈ ([1, 2, 4, 8] : List Nat) → 4 + L ≤ r.rest.length →
      read_int r =
        (.ok (sdecode L (leToNat ((r.rest.drop 4).take L))), ⟨(r.rest.drop 4).drop L⟩) ∧
      read_uint r =
        (.ok (leToNat ((r.rest.drop 4).take L)), ⟨(r.rest.drop 4).drop L⟩)) := by
  constructor
  · intro h
    obtain ⟨h1, h2, h4, h8⟩ : L ≠ 1 ∧ L ≠ 2 ∧ L ≠ 4 ∧ L ≠ 8 := by
      simp only [List.mem_cons, List.not_mem_nil, or_false] at h
      push_neg at h
      exact h
    constructor
    · unfold read_int
      rw [hpeek]
      dsimp only
      rw [if_neg h1, if_neg h2, if_neg h4, if_neg h8]
    · unfold read_uint
      rw [hpeek]
      dsimp only
      rw [if_neg h1, if_neg h2, if_neg h4, if_neg h8]
  · intro h hlen
    have hL : L = 1 ∨ L = 2 ∨ L = 4 ∨ L = 8 := by simpa using h
    rcases hL with rfl | rfl | rfl | rfl
    · refine ⟨?_, ?_⟩
      · unfold read_int
        rw [hpeek]
        dsimp only
        rw [if_pos rfl, read_param_sint_spec 1 r hpeek hlen]
      · unfold read_uint
        rw [hpeek]
        dsimp only
        rw [if_pos rfl, read_param_uint_spec 1 r hpeek hlen]
    · refine ⟨?_, ?_⟩
      · unfold read_int
        rw [hpeek]
        dsimp only
        rw [if_neg (by decide), if_pos rfl, read_param_sint_spec 2 r hpeek hlen]
      · unfold read_uint
        rw [hpeek]
        dsimp only
        rw [if_neg (by decide), if_pos rfl, read_param_uint_spec 2 r hpeek hlen]
    · refine ⟨?_, ?_⟩
      · unfold read_int
        rw [hpeek]
        dsimp only
        rw [if_neg (by decide), if_neg (by decide), if_pos rfl,
            read_param_sint_spec 4 r hpeek hlen]
      · unfold read_uint
        rw [hpeek]
        dsimp only
        rw [if_neg (by decide), if_neg (by decide), if_pos rfl,
            read_param_uint_spec 4 r hpeek hlen]
    · refine ⟨?_, ?_⟩
      · unfold read_int
        rw [hpeek]
        dsimp only
        rw [if_neg (by decide), if_neg (by decide), if_neg (by decide), if_pos rfl,
            read_param_sint_spec 8 r hpeek hlen]
      · unfold read_uint
        rw [hpeek]
        dsimp only
        rw [if_neg (by decide), if_neg (by decide), if_neg (by decide), if_pos rfl,
            read_param_uint_spec 8 r hpeek hlen]

/-- Witness for C7 at a two-byte record: both reads decode `0x0201`. -/
theorem read_int_uint_width_dispatch_witness :
    read_int c7reader = (.ok 513, ⟨[]⟩) ∧ read_uint c7reader = (.ok 513, ⟨[]⟩) := by
  obtain ⟨h1, h2⟩ :=
    (read_int_uint_width_dispatch c7reader 2 (by decide)).2 (by decide) (by decide)
  exact ⟨by rw [h1]; decide, by rw [h2]; decide⟩

/-- Counterexample to C8 as stated: the next record's length field is 8,
yet `read_float` does not decode it as a binary64 — it fails with
`WidthMismatch` (in the sources `read_float` is bound to the strict
`read_param<float>`, not to a width-dispatching lambda). -/
theorem read_float_width_agnostic_cex :
    peek_next_param_size ⟨u32le 8 ++ [0, 0, 0, 0, 0, 0, 0, 64]⟩ = .ok 8 ∧
    read_float ⟨u32le 8 ++ [0, 0, 0, 0, 0, 0, 0, 64]⟩ =
      (.error .WidthMismatch, ⟨u32le 8 ++ [0, 0, 0, 0, 0, 0, 0, 64]⟩) := by
  decide

/-- C8 amended: `read_float` accepts only a 4-byte record (decoding the
binary32 bit pattern little-endian) and fails with `WidthMismatch` on any
other length; the separate `read_double` accepts only an 8-byte record
(binary64) and fails with `WidthMismatch` on any other length. -/
theorem read_float_double_strict_width (r : PayloadReader) (L : Nat)
    (hpeek : peek_next_param_size r = .ok L) :
    (L ≠ 4 → read_float r = (.error .WidthMismatch, r)) ∧
    (L = 4 → 4 + 4 ≤ r.rest.length →
      read_float r = (.ok (leToNat ((r.rest.drop 4).take 4)), ⟨(r.rest.drop 4).drop 4⟩)) ∧
    (L ≠ 8 → read_double r = (.error .WidthMismatch, r)) ∧
    (L = 8 → 4 + 8 ≤ r.rest.length →
      read_double r = (.ok (leToNat ((r.rest.drop 4).take 8)), ⟨(r.rest.drop 4).drop 8⟩)) := by
  refine ⟨fun h4 => ?_, fun h4 hlen => ?_, fun h8 => ?_, fun h8 hlen => ?_⟩
  · unfold read_float
    rw [hpeek]
    dsimp only
    rw [if_neg h4]
  · subst h4
    unfold read_float
    rw [hpeek]
    dsimp only
    rw [if_pos rfl, readRecord_spec r 4 hpeek hlen]
  · unfold read_double
    rw [hpeek]
    dsimp only
    rw [if_neg h8]
  · subst h8
    unfold read_double
    rw [hpeek]
    dsimp only
    rw [if_pos rfl, readRecord_spec r 8 hpeek hlen]

/-- Witness for the amended C8: a 4-byte record read by `read_float` and
the same reader rejected by `read_double`. -/
theorem read_float_double_strict_width_witness :
    read_float ⟨u32le 4 ++ [1, 0, 0, 0]⟩ = (.ok 1, ⟨[]⟩) ∧
    read_double ⟨u32le 4 ++ [1, 0, 0, 0]⟩ =
      (.error .WidthMismatch, ⟨u32le 4 ++ [1, 0, 0, 0]⟩) := by
  have h := read_float_double_strict_width ⟨u32le 4 ++ [1, 0, 0, 0]⟩ 4 (by decide)
  exact ⟨by rw [h.2.1 rfl (by decide)]; decide, h.2.2.1 (by decide)⟩

/-! ## Version negotiation lemmas -/

theorem negotiate_none_sound (A B : List Nat) (h : negotiate A B = none) :
    ∀ x ∈ A, x ∉ B := by
  induction A with
  | nil => intro x hx; simp at hx
  | cons v t ih =>
    simp only [negotiate] at h
    intro x hx hxB
    rcases hrec : negotiate t B with _ | b
    · rw [hrec] at h
      dsimp only at h
      by_cases hv : v ∈ B
      · rw [if_pos hv] at h; cases h
      · rcases List.mem_cons.mp hx with rfl | hxt
        · exact hv hxB
        · exact ih hrec x hxt hxB
    · rw [hrec] at h
      dsimp only at h
      by_cases hv : v ∈ B
      · rw [if_pos hv] at h; cases h
      · rw [if_neg hv] at h; cases h

theorem negotiate_mem (A B : List Nat) (m : Nat) (h : negotiate A B = some m) :
    m ∈ A ∧ m ∈ B := by
  induction A generalizing m with
  | nil => simp [negotiate] at h
  | cons v t ih =>
    simp only [negotiate] at h
    rcases hrec : negotiate t B with _ | b <;> rw [hrec] at h <;> dsimp only at h
    · by_cases hv : v ∈ B
      · rw [if_pos hv] at h
        injection h with h
        subst h
        exact ⟨List.mem_cons_self _ _, hv⟩
      · rw [if_neg hv] at h; cases h
    · by_cases hv : v ∈ B
      · rw [if_pos hv] at h
        injection h with h
        obtain ⟨hbt, hbB⟩ := ih b hrec
        rcases max_choice v b with hm | hm <;> rw [hm] at h <;> subst h
        · exact ⟨List.mem_cons_self _ _, hv⟩
        · exact ⟨List.mem_cons_of_mem _ hbt, hbB⟩
      · rw [if_neg hv] at h
        injection h with h
        subst h
        obtain ⟨hbt, hbB⟩ := ih b hrec
        exact ⟨List.mem_cons_of_mem _ hbt, hbB⟩

theorem negotiate_ub (A B : List Nat) (m : Nat) (h : negotiate A B = some m) :
    ∀ x ∈ A, x ∈ B → x ≤ m := by
  induction A generalizing m with
  | nil => intro x hx; simp at hx
  | cons v t ih =>
    intro x hx hxB
    simp only [negotiate] at h
    rcases hrec : negotiate t B with _ | b <;> rw [hrec] at h <;> dsimp only at h
    · by_cases hv : v ∈ B
      · rw [if_pos hv] at h
        injection h with h
        subst h
        rcases List.mem_cons.mp hx with rfl | hxt
        · exact le_refl _
        · exact absurd hxB (negotiate_none_sound t B hrec x hxt)
      · rw [if_neg hv] at h; cases h
    · by_cases hv : v ∈ B
      · rw [if_pos hv] at h
        injection h with h
        subst h
        rcases List.mem_cons.mp hx with rfl | hxt
        · exact Nat.le_max_left _ _
        · exact le_trans (ih b hrec x hxt hxB) (Nat.le_max_right _ _)
      · rw [if_neg hv] at h
        injection h with h
        subst h
        rcases List.mem_cons.mp hx with rfl | hxt
        · exact absurd hxB hv
        · exact ih b hrec x hxt hxB

theorem negotiate_some_iff (A B : List Nat) (m : Nat) :
    negotiate A B = some m ↔ m ∈ A ∧ m ∈ B ∧ ∀ x ∈ A, x ∈ B → x ≤ m := by
  constructor
  · intro h
    obtain ⟨hA, hB⟩ := negotiate_mem A B m h
    exact ⟨hA, hB, negotiate_ub A B m h⟩
  · rintro ⟨hA, hB, hub⟩
    rcases hres : negotiate A B with _ | b
    · exact absurd hB (negotiate_none_sound A B hres m hA)
    · obtain ⟨hbA, hbB⟩ := negotiate_mem A B b hres
      have h1 : b ≤ m := hub b hbA hbB
      have h2 : m ≤ b := negotiate_ub A B b hres m hA hB
      rw [Nat.le_antisymm h2 h1]

theorem negotiate_none_iff (A B : List Nat) :
    negotiate A B = none ↔ ∀ x ∈ A, x ∉ B := by
  constructor
  · exact negotiate_none_sound A B
  · intro h
    rcases hres : negotiate A B with _ | b
    · rfl
    · obtain ⟨hbA, hbB⟩ := negotiate_mem A B b hres
      exact absurd hbB (h b hbA)

/-- C5: `negotiate` returns the maximum version present in both input
sequences (`none` exactly when the intersection is empty), and the result
is invariant under any permutation of either input. -/
theorem negotiate_max_common (A B A2 B2 : List Nat) :
    (∀ m, negotiate A B = some m → m ∈ A ∧ m ∈ B ∧ ∀ x ∈ A, x ∈ B → x ≤ m) ∧
    (negotiate A B = none ↔ ∀ x ∈ A, x ∉ B) ∧
    (A.Perm A2 → B.Perm B2 → negotiate A B = negotiate A2 B2) := by
  refine ⟨fun m h => (negotiate_some_iff A B m).mp h, negotiate_none_iff A B, ?_⟩
  intro hA hB
  rcases hres : negotiate A B with _ | b
  · symm
    rw [negotiate_none_iff] at hres ⊢
    intro x hx
    exact fun hxB => hres x (hA.symm.subset hx) (hB.symm.subset hxB)
  · symm
    rw [negotiate_some_iff] at hres ⊢
    obtain ⟨h1, h2, h3⟩ := hres
    exact ⟨hA.subset h1, hB.subset h2,
           fun x hx hxB => h3 x (hA.symm.subset hx) (hB.symm.subset hxB)⟩

/-- Witness for C5: on permuted inputs with common versions `{1, 3}` the
negotiator picks `3` either way. -/
theorem negotiate_max_common_witness :
    negotiate [1, 3, 2] [3, 1, 5] = negotiate [3, 2, 1] [5, 1, 3] ∧
    negotiate [1, 3, 2] [3, 1, 5] = some 3 := by
  refine ⟨(negotiate_max_common [1, 3, 2] [3, 1, 5] [3, 2, 1] [5, 1, 3]).2.2 ?_ ?_, ?_⟩
  · decide
  · decide
  · decide

/-! ## Crypto lemmas -/

theorem ks_lt (key : Bytes) (ctr i : Nat) : ks key ctr i < 256 :=
  Nat.mod_lt _ (by norm_num)

theorem length_xorStream (key : Bytes) (ctr : Nat) (i : Nat) (bs : Bytes) :
    (xorStream key ctr i bs).length = bs.length := by
  induction bs generalizing i with
  | nil => rfl
  | cons b t ih => simp [xorStream, ih]

theorem unxor_xor (key : Bytes) (ctr : Nat) (bs : Bytes) (h : ∀ b ∈ bs, b < 256) :
    ∀ i, unxorStream key ctr i (xorStream key ctr i bs) = bs := by
  induction bs with
  | nil => intro i; rfl
  | cons b t ih =>
    intro i
    simp only [xorStream, unxorStream, List.cons.injEq]
    refine ⟨?_, ih (fun y hy => h y (List.mem_cons_of_mem _ hy)) (i + 1)⟩
    have hb : b < 256 := h b (List.mem_cons_self _ _)
    have hk : ks key ctr i < 256 := ks_lt key ctr i
    omega

theorem decrypt_encrypt (pt : Bytes) (ctr : Nat) (key : Bytes)
    (h : ∀ b ∈ pt, b < 256) :
    Crypto.decrypt (Crypto.encrypt pt ctr key) ctr key = .ok pt := by
  unfold Crypto.encrypt Crypto.decrypt
  have hx : (xorStream key ctr 0 pt).length = pt.length := length_xorStream key ctr 0 pt
  have hlen : (xorStream key ctr 0 pt ++ tagOf key ctr pt).length = pt.length + 16 := by
    simp [tagOf, hx]
  rw [if_pos (by omega)]
  have hsub : (xorStream key ctr 0 pt ++ tagOf key ctr pt).length - 16 =
      (xorStream key ctr 0 pt).length := by omega
  rw [hsub, List.take_left, List.drop_left, unxor_xor key ctr pt h 0, if_pos rfl]

theorem serialize_bytes_lt (p : Payload) (h : ∀ b ∈ p.parameters, b < 256) :
    ∀ b ∈ p.serialize, b < 256 := by
  intro b hb
  unfold Payload.serialize at hb
  rcases List.mem_append.mp hb with h1 | h1
  · simp only [u16be, List.mem_cons, List.not_mem_nil, or_false] at h1
    rcases h1 with rfl | rfl <;> exact Nat.mod_lt _ (by norm_num)
  · exact h b h1

/-! ## Record-layer lemmas -/

theorem encrypt_decrypt_record (stx srx : Session) (p : Payload) (kt kr : SessionKeys)
    (hst : stx.phase = .ESTABLISHED) (hsr : srx.phase = .ESTABLISHED)
    (hkt : stx.session_keys = some kt) (hkr : srx.session_keys = some kr)
    (hkey : kt.tx = kr.rx) (hctr : stx.tx_counter = srx.rx_counter)
    (hmax : stx.tx_counter + 1 < 2 ^ 64)
    (hop : p.op_code < 2 ^ 16) (hpb : ∀ b ∈ p.parameters, b < 256) :
    encrypt_payload stx p =
      (.ok (u64be stx.tx_counter ++ Crypto.encrypt p.serialize stx.tx_counter kt.tx),
       { stx with tx_counter := stx.tx_counter + 1 }) ∧
    decrypt_packet srx
        (u64be stx.tx_counter ++ Crypto.encrypt p.serialize stx.tx_counter kt.tx) =
      (.ok p, { srx with rx_counter := srx.rx_counter + 1 }) := by
  constructor
  · unfold encrypt_payload
    rw [hst]
    dsimp only
    rw [hkt]
    dsimp only
    rw [if_pos hmax]
  · unfold decrypt_packet
    rw [hsr]
    dsimp only
    have hlen : (u64be stx.tx_counter ++
        Crypto.encrypt p.serialize stx.tx_counter kt.tx).length =
        8 + (Crypto.encrypt p.serialize stx.tx_counter kt.tx).length := by
      simp [u64be]; omega
    rw [if_neg (by omega)]
    have ht8 : (u64be stx.tx_counter ++
        Crypto.encrypt p.serialize stx.tx_counter kt.tx).take 8 = u64be stx.tx_counter := by
      rw [show (8 : Nat) = (u64be stx.tx_counter).length from rfl, List.take_left]
    have hd8 : (u64be stx.tx_counter ++
        Crypto.encrypt p.serialize stx.tx_counter kt.tx).drop 8 =
        Crypto.encrypt p.serialize stx.tx_counter kt.tx := by
      rw [show (8 : Nat) = (u64be stx.tx_counter).length from rfl, List.drop_left]
    rw [ht8, hd8, beToNat_u64be _ (by omega), hctr, if_pos rfl, hkr]
    dsimp only
    rw [← hkey, ← hctr, decrypt_encrypt p.serialize stx.tx_counter kt.tx
        (serialize_bytes_lt p hpb)]
    dsimp only
    rw [payload_deserialize_serialize p hop]

/-! ## Handshake message lemmas -/

theorem readU16s_encode (vs : List Nat) (tail : Bytes) (hv : ∀ v ∈ vs, v < 2 ^ 16) :
    readU16s vs.length ((vs.map u16be).flatten ++ tail) = some (vs, tail) := by
  induction vs with
  | nil => rfl
  | cons v t ih =>
    have hshape : (((v :: t).map u16be).flatten ++ tail) =
        v / 256 % 256 :: v % 256 :: ((t.map u16be).flatten ++ tail) := by
      simp [u16be]
    rw [List.length_cons, hshape]
    unfold readU16s
    rw [ih (fun y hy => hv y (List.mem_cons_of_mem _ hy))]
    dsimp only
    have hval : v / 256 % 256 * 256 + v % 256 = v := by
      have := hv v (List.mem_cons_self _ _)
      omega
    rw [hval]

theorem clienthello_roundtrip (ch : ClientHello)
    (hn : ch.supported_versions.length < 2 ^ 16) (hnz : ch.supported_versions ≠ [])
    (hv : ∀ v ∈ ch.supported_versions, v < 2 ^ 16) (hpk : ch.ephemeral_pk.length = 32) :
    ClientHello.deserialize ch.serialize = .ok ch := by
  unfold ClientHello.serialize ClientHello.deserialize
  have hshape : u16be ch.supported_versions.length ++
      (ch.supported_versions.map u16be).flatten ++ ch.ephemeral_pk =
      ch.supported_versions.length / 256 % 256 :: ch.supported_versions.length % 256 ::
        ((ch.supported_versions.map u16be).flatten ++ ch.ephemeral_pk) := by
    simp [u16be]
  rw [hshape]
  dsimp only
  have hval : ch.supported_versions.length / 256 % 256 * 256 +
      ch.supported_versions.length % 256 = ch.supported_versions.length := by omega
  rw [hval]
  rw [if_neg (by simpa using hnz)]
  rw [readU16s_encode _ _ hv]
  dsimp only
  rw [if_pos hpk]

theorem serverhello_roundtrip (sh : ServerHello) (hv : sh.selected_version < 2 ^ 16)
    (hpk : sh.ephemeral_pk.length = 32) (hsig : sh.signature.length = 64) :
    ServerHello.deserialize sh.serialize = .ok sh := by
  unfold ServerHello.serialize ServerHello.deserialize
  have hassoc : u16be sh.selected_version ++ sh.ephemeral_pk ++ sh.signature =
      u16be sh.selected_version ++ (sh.ephemeral_pk ++ sh.signature) := by
    rw [List.append_assoc]
  have hlen : (u16be sh.selected_version ++ sh.ephemeral_pk ++ sh.signature).length = 98 := by
    simp [u16be, hpk, hsig]
  rw [if_pos hlen, hassoc]
  have ht2 : (u16be sh.selected_version ++ (sh.ephemeral_pk ++ sh.signature)).take 2 =
      u16be sh.selected_version := by
    rw [show (2 : Nat) = (u16be sh.selected_version).length from rfl, List.take_left]
  have hd2 : (u16be sh.selected_version ++ (sh.ephemeral_pk ++ sh.signature)).drop 2 =
      sh.ephemeral_pk ++ sh.signature := by
    rw [show (2 : Nat) = (u16be sh.selected_version).length from rfl, List.drop_left]
  have hd34 : (u16be sh.selected_version ++ (sh.ephemeral_pk ++ sh.signature)).drop 34 =
      sh.signature := by
    rw [show (34 : Nat) = 2 + 32 from rfl, ← List.drop_drop, hd2,
        show (32 : Nat) = sh.ephemeral_pk.length from hpk.symm, List.drop_left]
  rw [ht2, hd2, hd34, beToNat_u16be _ hv,
      show (32 : Nat) = sh.ephemeral_pk.length from hpk.symm, List.take_left]

/-! ## Handshake state lemmas -/

theorem session_keys_match (cEsk sEsk : Bytes) :
    (Crypto.client_compute_session_keys ⟨pubOf cEsk, cEsk⟩ (pubOf sEsk)).tx =
      (Crypto.server_compute_session_keys ⟨pubOf sEsk, sEsk⟩ (pubOf cEsk)).rx ∧
    (Crypto.server_compute_session_keys ⟨pubOf sEsk, sEsk⟩ (pubOf cEsk)).tx =
      (Crypto.client_compute_session_keys ⟨pubOf cEsk, cEsk⟩ (pubOf sEsk)).rx := by
  constructor <;>
    simp [Crypto.client_compute_session_keys, Crypto.server_compute_session_keys,
      dhShared, pubOf, List.sum_reverse, Nat.add_comm]

theorem core_client_initiate (ssk cEsk : Bytes) :
    client_initiate_handshake (Session.create .CLIENT ⟨pubOf ssk, []⟩) ⟨pubOf cEsk, cEsk⟩ =
      (.ok ⟨[1], pubOf cEsk⟩,
       { Session.create .CLIENT ⟨pubOf ssk, []⟩ with
           ephemeral := some ⟨pubOf cEsk, cEsk⟩, phase := .AWAIT_SERVER_HELLO }) := rfl

theorem core_server_respond (ssk cEsk sEsk : Bytes) :
    server_respond_to_handshake (Session.create .SERVER ⟨pubOf ssk, ssk⟩)
        ⟨[1], pubOf cEsk⟩ ⟨pubOf sEsk, sEsk⟩ =
      (.ok ⟨1, pubOf sEsk, Crypto.sign (pubOf cEsk ++ pubOf sEsk) ssk⟩,
       serverHS ssk cEsk sEsk) := by
  unfold server_respond_to_handshake Session.create serverHS
  dsimp only
  rw [show negotiate [1] SUPPORTED_VERSIONS = some 1 from by decide]

theorem core_client_finalize (ssk cEsk sEsk : Bytes) :
    client_finalize_handshake
        { Session.create .CLIENT ⟨pubOf ssk, []⟩ with
            ephemeral := some ⟨pubOf cEsk, cEsk⟩, phase := .AWAIT_SERVER_HELLO }
        ⟨1, pubOf sEsk, Crypto.sign (pubOf cEsk ++ pubOf sEsk) ssk⟩ =
      (.ok (), clientHS ssk cEsk sEsk) := by
  unfold client_finalize_handshake Session.create clientHS
  dsimp only
  have hver : Crypto.verify (Crypto.sign (pubOf cEsk ++ pubOf sEsk) ssk)
      (pubOf cEsk ++ pubOf sEsk) (pubOf ssk) = true := by
    simp [Crypto.verify, Crypto.sign]
  rw [if_pos (by decide : SUPPORTED_VERSIONS.contains 1 = true), if_pos hver]

/-- C1: with the client constructed on the server's trusted signing public
key, the two-message handshake completes through the wrapper API, and for
every well-formed payload `p` each side's `decrypt_packet` applied to the
frame produced by the other side's `encrypt_payload p` returns exactly
`p`, in both directions. -/
theorem session_record_roundtrip (ssk cEsk sEsk : Bytes) (p : Payload)
    (hcl : cEsk.length = 32) (hel : sEsk.length = 32)
    (hop : p.op_code < 2 ^ 16) (hpb : ∀ b ∈ p.parameters, b < 256)
    (cb1 cb2 d1 d2 : Option Nat) (oh1 oh2 : List (Nat × Nat)) :
    wrapper_client_initiate (cliW0 ssk cb1 d1 oh1) ⟨pubOf cEsk, cEsk⟩ =
      (.ok (chBytes cEsk), ⟨cliAwait ssk cEsk, cb1, d1, oh1⟩) ∧
    wrapper_server_respond (srvW0 ssk cb2 d2 oh2) (chBytes cEsk) ⟨pubOf sEsk, sEsk⟩ =
      (.ok (shBytes ssk cEsk sEsk), ⟨serverHS ssk cEsk sEsk, cb2, d2, oh2⟩, hsFired cb2) ∧
    wrapper_client_finalize ⟨cliAwait ssk cEsk, cb1, d1, oh1⟩ (shBytes ssk cEsk sEsk) =
      (.ok (), ⟨clientHS ssk cEsk sEsk, cb1, d1, oh1⟩, hsFired cb1) ∧
    (∃ f w', wrapper_encrypt_payload ⟨clientHS ssk cEsk sEsk, cb1, d1, oh1⟩ p =
        (.ok f, w') ∧
      (wrapper_decrypt_packet ⟨serverHS ssk cEsk sEsk, cb2, d2, oh2⟩ f).1 = .ok p) ∧
    (∃ g w'', wrapper_encrypt_payload ⟨serverHS ssk cEsk sEsk, cb2, d2, oh2⟩ p =
        (.ok g, w'') ∧
      (wrapper_decrypt_packet ⟨clientHS ssk cEsk sEsk, cb1, d1, oh1⟩ g).1 = .ok p) := by
  have hpkc : (pubOf cEsk).length = 32 := by simp [pubOf, hcl]
  have hpks : (pubOf sEsk).length = 32 := by simp [pubOf, hel]
  have hsig : (Crypto.sign (pubOf cEsk ++ pubOf sEsk) ssk).length = 64 := by
    simp [Crypto.sign, sigOf]
  refine ⟨?_, ?_, ?_, ?_, ?_⟩
  · unfold wrapper_client_initiate cliW0 cliAwait chBytes
    rw [core_client_initiate]
  · unfold wrapper_server_respond srvW0 chBytes shBytes
    rw [clienthello_roundtrip ⟨[1], pubOf cEsk⟩ (by norm_num) (by simp)
        (by intro v hv; simp at hv; omega) hpkc]
    dsimp only
    rw [core_server_respond]
    dsimp only
    rw [if_pos (by rfl : is_handshake_complete (serverHS ssk cEsk sEsk) = true)]
  · unfold wrapper_client_finalize cliAwait shBytes
    rw [serverhello_roundtrip ⟨1, pubOf sEsk, Crypto.sign (pubOf cEsk ++ pubOf sEsk) ssk⟩
        (by norm_num) hpks hsig]
    dsimp only
    rw [core_client_finalize]
    dsimp only
    rw [if_pos (by rfl : is_handshake_complete (clientHS ssk cEsk sEsk) = true)]
  · obtain ⟨henc, hdec⟩ := encrypt_decrypt_record (clientHS ssk cEsk sEsk)
      (serverHS ssk cEsk sEsk) p
      (Crypto.client_compute_session_keys ⟨pubOf cEsk, cEsk⟩ (pubOf sEsk))
      (Crypto.server_compute_session_keys ⟨pubOf sEsk, sEsk⟩ (pubOf cEsk))
      rfl rfl rfl rfl (session_keys_match cEsk sEsk).1 rfl (by simp [clientHS]) hop hpb
    refine ⟨u64be (clientHS ssk cEsk sEsk).tx_counter ++
        Crypto.encrypt p.serialize (clientHS ssk cEsk sEsk).tx_counter
          (Crypto.client_compute_session_keys ⟨pubOf cEsk, cEsk⟩ (pubOf sEsk)).tx,
      ⟨{ clientHS ssk cEsk sEsk with
           tx_counter := (clientHS ssk cEsk sEsk).tx_counter + 1 }, cb1, d1, oh1⟩, ?_, ?_⟩
    · unfold wrapper_encrypt_payload
      rw [henc]
    · unfold wrapper_decrypt_packet
      rw [hdec]
  · obtain ⟨henc, hdec⟩ := encrypt_decrypt_record (serverHS ssk cEsk sEsk)
      (clientHS ssk cEsk sEsk) p
      (Crypto.server_compute_session_keys ⟨pubOf sEsk, sEsk⟩ (pubOf cEsk))
      (Crypto.client_compute_session_keys ⟨pubOf cEsk, cEsk⟩ (pubOf sEsk))
      rfl rfl rfl rfl (session_keys_match cEsk sEsk).2 rfl (by simp [serverHS]) hop hpb
    refine ⟨u64be (serverHS ssk cEsk sEsk).tx_counter ++
        Crypto.encrypt p.serialize (serverHS ssk cEsk sEsk).tx_counter
          (Crypto.server_compute_session_keys ⟨pubOf sEsk, sEsk⟩ (pubOf cEsk)).tx,
      ⟨{ serverHS ssk cEsk sEsk with
           tx_counter := (serverHS ssk cEsk sEsk).tx_counter + 1 }, cb2, d2, oh2⟩, ?_, ?_⟩
    · unfold wrapper_encrypt_payload
      rw [henc]
    · unfold wrapper_decrypt_packet
      rw [hdec]

/-! ## Session claim lemmas -/

theorem encrypt_step_counters (s : Session) (p : Payload) (out : Bytes) (s' : Session)
    (h : encrypt_payload s p = (.ok out, s')) :
    s'.tx_counter = s.tx_counter + 1 ∧ s'.rx_counter = s.rx_counter ∧
    s.phase = .ESTABLISHED := by
  unfold encrypt_payload at h
  rcases hph : s.phase with _ | _ | _ | _ <;> rw [hph] at h <;> dsimp only at h
  case INIT => simp at h
  case AWAIT_SERVER_HELLO => simp at h
  case FAILED => simp at h
  case ESTABLISHED =>
    rcases hk : s.session_keys with _ | keys <;> rw [hk] at h <;> dsimp only at h
    · simp at h
    · by_cases hm : s.tx_counter + 1 < 2 ^ 64
      · rw [if_pos hm] at h
        simp only [Prod.mk.injEq, Except.ok.injEq] at h
        rw [← h.2]
        exact ⟨rfl, rfl, rfl⟩
      · rw [if_neg hm] at h
        simp at h

theorem decrypt_step_counters (s : Session) (f : Bytes) (out : Payload) (s' : Session)
    (h : decrypt_packet s f = (.ok out, s')) :
    s'.rx_counter = s.rx_counter + 1 ∧ s'.tx_counter = s.tx_counter ∧
    s.phase = .ESTABLISHED ∧ 8 ≤ f.length ∧ beToNat (f.take 8) = s.rx_counter := by
  unfold decrypt_packet at h
  rcases hph : s.phase with _ | _ | _ | _ <;> rw [hph] at h <;> dsimp only at h
  case INIT => simp at h
  case AWAIT_SERVER_HELLO => simp at h
  case FAILED => simp at h
  case ESTABLISHED =>
    by_cases hlen : f.length < 8
    · rw [if_pos hlen] at h; simp at h
    · rw [if_neg hlen] at h
      by_cases hctr : beToNat (f.take 8) = s.rx_counter
      · rw [if_pos hctr] at h
        rcases hk : s.session_keys with _ | keys <;> rw [hk] at h <;> dsimp only at h
        · simp at h
        · rcases hd : Crypto.decrypt (f.drop 8) (beToNat (f.take 8)) keys.rx with e | pt <;>
            rw [hd] at h <;> dsimp only at h
          · simp at h
          · rcases hp : Payload.deserialize pt with e | pl <;> rw [hp] at h <;>
              dsimp only at h
            · simp at h
            · simp only [Prod.mk.injEq, Except.ok.injEq] at h
              rw [← h.2]
              exact ⟨rfl, rfl, rfl, by omega, hctr⟩
      · rw [if_neg hctr] at h; simp at h

theorem encryptAll_counters (ps : List Payload) (s s' : Session)
    (h : encryptAll s ps = some s') :
    s'.tx_counter = s.tx_counter + ps.length := by
  induction ps generalizing s with
  | nil =>
    unfold encryptAll at h
    injection h with h
    rw [← h]
    simp
  | cons p t ih =>
    unfold encryptAll at h
    rcases he : encrypt_payload s p with ⟨res, s1⟩
    rw [he] at h
    rcases res with e | out <;> dsimp only at h
    · cases h
    · have hstep := encrypt_step_counters s p out s1 he
      rw [ih s1 h, hstep.1, List.length_cons]
      omega

theorem decryptAll_counters (fs : List Bytes) (s s' : Session)
    (h : decryptAll s fs = some s') :
    s'.rx_counter = s.rx_counter + fs.length := by
  induction fs generalizing s with
  | nil =>
    unfold decryptAll at h
    injection h with h
    rw [← h]
    simp
  | cons f t ih =>
    unfold decryptAll at h
    rcases he : decrypt_packet s f with ⟨res, s1⟩
    rw [he] at h
    rcases res with e | out <;> dsimp only at h
    · cases h
    · have hstep := decrypt_step_counters s f out s1 he
      rw [ih s1 h, hstep.1, List.length_cons]
      omega

theorem server_respond_zeroes (s s' : Session) (ch : ClientHello) (eph : KeyPair)
    (out : ServerHello) (h : server_respond_to_handshake s ch eph = (.ok out, s')) :
    s'.tx_counter = 0 ∧ s'.rx_counter = 0 ∧ s'.phase = .ESTABLISHED := by
  unfold server_respond_to_handshake at h
  rcases hph : s.phase with _ | _ | _ | _ <;> rw [hph] at h <;> dsimp only at h
  case AWAIT_SERVER_HELLO => simp at h
  case ESTABLISHED => simp at h
  case FAILED => simp at h
  case INIT =>
    rcases hn : negotiate ch.supported_versions SUPPORTED_VERSIONS with _ | v <;>
      rw [hn] at h <;> dsimp only at h
    · simp at h
    · simp only [Prod.mk.injEq, Except.ok.injEq] at h
      rw [← h.2]
      exact ⟨rfl, rfl, rfl⟩

theorem client_finalize_zeroes (s s' : Session) (sh : ServerHello) (u : Unit)
    (h : client_finalize_handshake s sh = (.ok u, s')) :
    s'.tx_counter = 0 ∧ s'.rx_counter = 0 ∧ s'.phase = .ESTABLISHED := by
  unfold client_finalize_handshake at h
  rcases hph : s.phase with _ | _ | _ | _ <;> rw [hph] at h <;> dsimp only at h
  case INIT => simp at h
  case ESTABLISHED => simp at h
  case FAILED => simp at h
  case AWAIT_SERVER_HELLO =>
    rcases heph : s.ephemeral with _ | ceph <;> rw [heph] at h <;> dsimp only at h
    · simp at h
    · by_cases hver : SUPPORTED_VERSIONS.contains sh.selected_version = true
      · rw [if_pos hver] at h
        by_cases hsig : Crypto.verify sh.signature (ceph.publicKey ++ sh.ephemeral_pk)
            s.identity.publicKey = true
        · rw [if_pos hsig] at h
          simp only [Prod.mk.injEq, Except.ok.injEq] at h
          rw [← h.2]
          exact ⟨rfl, rfl, rfl⟩
        · rw [if_neg hsig] at h; simp at h
      · rw [if_neg hver] at h; simp at h

/-- C6: both handshake completion paths zero the counters, and the
directional counters advance by exactly one per successful record
operation: after `N` successful `encrypt_payload` calls `tx_counter` has
grown by `N`, and after `N` successful `decrypt_packet` calls the peer's
`rx_counter` has grown by `N`. -/
theorem counter_monotonicity (s t : Session) (ch : ClientHello) (sh : ServerHello)
    (eph : KeyPair) (ps : List Payload) (fs : List Bytes) :
    (∀ out s', server_respond_to_handshake s ch eph = (.ok out, s') →
      s'.tx_counter = 0 ∧ s'.rx_counter = 0) ∧
    (∀ u s', client_finalize_handshake s sh = (.ok u, s') →
      s'.tx_counter = 0 ∧ s'.rx_counter = 0) ∧
    (∀ s', encryptAll t ps = some s' → s'.tx_counter = t.tx_counter + ps.length) ∧
    (∀ s', decryptAll t fs = some s' → s'.rx_counter = t.rx_counter + fs.length) := by
  refine ⟨?_, ?_, ?_, ?_⟩
  · intro out s' h
    obtain ⟨h1, h2, _⟩ := server_respond_zeroes s s' ch eph out h
    exact ⟨h1, h2⟩
  · intro u s' h
    obtain ⟨h1, h2, _⟩ := client_finalize_zeroes s s' sh u h
    exact ⟨h1, h2⟩
  · exact fun s' h => encryptAll_counters ps t s' h
  · exact fun s' h => decryptAll_counters fs t s' h

/-- C3: on an established session, `decrypt_packet` succeeds only when the
first 8 frame bytes, read as a big-endian u64, equal the current
`rx_counter` (which then advances by one); any frame carrying a different
counter — a replayed one or a future index — fails with `ReplayOrReorder`
leaving the session unchanged, so a subsequent in-order frame is handled
exactly as before the failure. -/
theorem decrypt_counter_discipline (s : Session) (frame f2 : Bytes)
    (hest : s.phase = .ESTABLISHED) :
    (∀ p s', decrypt_packet s frame = (.ok p, s') →
      8 ≤ frame.length ∧ beToNat (frame.take 8) = s.rx_counter ∧
      s'.rx_counter = s.rx_counter + 1) ∧
    (8 ≤ frame.length → beToNat (frame.take 8) ≠ s.rx_counter →
      decrypt_packet s frame = (.error .ReplayOrReorder, s) ∧
      decrypt_packet ((decrypt_packet s frame).2) f2 = decrypt_packet s f2) := by
  constructor
  · intro p s' h
    obtain ⟨h1, _, _, h4, h5⟩ := decrypt_step_counters s frame p s' h
    exact ⟨h4, h5, h1⟩
  · intro hlen hctr
    have hres : decrypt_packet s frame = (.error .ReplayOrReorder, s) := by
      unfold decrypt_packet
      rw [hest]
      dsimp only
      rw [if_neg (by omega), if_neg hctr]
    exact ⟨hres, by rw [hres]⟩

/-- C4: neither record-layer operation succeeds on the wrapper unless the
handshake is complete; before completion both fail with `InvalidState`,
invoke no callback, and leave the wrapper (hence the session) unchanged. -/
theorem record_ops_require_handshake (w : PySessionWrapper) (p : Payload) (f : Bytes) :
    (is_handshake_complete w.session = false →
      wrapper_encrypt_payload w p = (.error .InvalidState, w) ∧
      wrapper_decrypt_packet w f = (.error .InvalidState, w, [])) ∧
    (∀ out w', wrapper_encrypt_payload w p = (.ok out, w') →
      is_handshake_complete w.session = true) ∧
    (∀ out r, wrapper_decrypt_packet w f = (.ok out, r) →
      is_handshake_complete w.session = true) := by
  have key : is_handshake_complete w.session = false →
      wrapper_encrypt_payload w p = (.error .InvalidState, w) ∧
      wrapper_decrypt_packet w f = (.error .InvalidState, w, []) := by
    intro hnc
    have hph : w.session.phase ≠ .ESTABLISHED := by
      intro hcontra
      unfold is_handshake_complete at hnc
      rw [hcontra] at hnc
      cases hnc
    have henc : encrypt_payload w.session p = (.error .InvalidState, w.session) := by
      unfold encrypt_payload
      cases hp2 : w.session.phase with
      | ESTABLISHED => exact absurd hp2 hph
      | INIT => rfl
      | AWAIT_SERVER_HELLO => rfl
      | FAILED => rfl
    have hdec : decrypt_packet w.session f = (.error .InvalidState, w.session) := by
      unfold decrypt_packet
      cases hp2 : w.session.phase with
      | ESTABLISHED => exact absurd hp2 hph
      | INIT => rfl
      | AWAIT_SERVER_HELLO => rfl
      | FAILED => rfl
    constructor
    · unfold wrapper_encrypt_payload
      rw [henc]
    · unfold wrapper_decrypt_packet
      rw [hdec]
  refine ⟨key, ?_, ?_⟩
  · intro out w' h
    by_cases hc : is_handshake_complete w.session = true
    · exact hc
    · rw [(key (by simpa using hc)).1] at h
      simp at h
  · intro out r h
    by_cases hc : is_handshake_complete w.session = true
    · exact hc
    · rw [(key (by simpa using hc)).2] at h
      simp at h

/-- C9 amended: the wrapper's `decrypt_packet` result and successor
session state are exactly those of the core `decrypt_packet`, a pure
function of session state and wire bytes unaffected by the registered
handlers; the wrapper — not the core — then invokes exactly one registered
handler (the opcode's, else the default) on success and none on failure. -/
theorem decrypt_packet_pure_dispatch (w : PySessionWrapper) (f : Bytes) :
    (wrapper_decrypt_packet w f).1 = (decrypt_packet w.session f).1 ∧
    (wrapper_decrypt_packet w f).2.1 =
      { w with session := (decrypt_packet w.session f).2 } ∧
    (wrapper_decrypt_packet w f).2.2 =
      (match (decrypt_packet w.session f).1 with
       | .ok p =>
         (match findHandler w.op_handlers p.op_code with
          | some h => [h]
          | none =>
            (match w.default_payload_handler with
             | some h => [h]
             | none => []))
       | .error _ => []) := by
  unfold wrapper_decrypt_packet
  rcases hd : decrypt_packet w.session f with ⟨res, s'⟩
  rcases res with e | p <;> dsimp only <;> exact ⟨rfl, rfl, rfl⟩

/-- C10: the handshake-completion callback fires from
`server_respond_to_handshake` and `client_finalize_handshake` exactly once,
exactly when the underlying session step succeeds with the handshake then
complete and a callback is registered; with no callback registered the
operations behave identically (for the server, still returning the
serialized `ServerHello`). -/
theorem handshake_callback_exactly_once (w : PySessionWrapper) (chB shB : Bytes)
    (eph : KeyPair) :
    ((wrapper_server_respond w chB eph).2.2 =
      (match (wrapper_server_respond w chB eph).1 with
       | .ok _ =>
         if is_handshake_complete (wrapper_server_respond w chB eph).2.1.session then
           hsFired w.on_handshake_complete
         else []
       | .error _ => [])) ∧
    ((wrapper_client_finalize w shB).2.2 =
      (match (wrapper_client_finalize w shB).1 with
       | .ok _ =>
         if is_handshake_complete (wrapper_client_finalize w shB).2.1.session then
           hsFired w.on_handshake_complete
         else []
       | .error _ => [])) ∧
    (w.on_handshake_complete = none →
      (wrapper_server_respond w chB eph).2.2 = [] ∧
      (wrapper_client_finalize w shB).2.2 = []) ∧
    ((wrapper_server_respond { w with on_handshake_complete := none } chB eph).1 =
      (wrapper_server_respond w chB eph).1) ∧
    ((wrapper_client_finalize { w with on_handshake_complete := none } shB).1 =
      (wrapper_client_finalize w shB).1) ∧
    (∀ out, (wrapper_server_respond w chB eph).1 = .ok out →
      ∃ ch sh s', ClientHello.deserialize chB = .ok ch ∧
        server_respond_to_handshake w.session ch eph = (.ok sh, s') ∧
        out = sh.serialize ∧ is_handshake_complete s' = true) := by
  have hA : ((wrapper_server_respond w chB eph).2.2 =
      (match (wrapper_server_respond w chB eph).1 with
       | .ok _ =>
         if is_handshake_complete (wrapper_server_respond w chB eph).2.1.session then
           hsFired w.on_handshake_complete
         else []
       | .error _ => [])) ∧
      (w.on_handshake_complete = none → (wrapper_server_respond w chB eph).2.2 = []) ∧
      ((wrapper_server_respond { w with on_handshake_complete := none } chB eph).1 =
        (wrapper_server_respond w chB eph).1) ∧
      (∀ out, (wrapper_server_respond w chB eph).1 = .ok out →
        ∃ ch sh s', ClientHello.deserialize chB = .ok ch ∧
          server_respond_to_handshake w.session ch eph = (.ok sh, s') ∧
          out = sh.serialize ∧ is_handshake_complete s' = true) := by
    unfold wrapper_server_respond
    cases hch : ClientHello.deserialize chB with
    | error e =>
      refine ⟨rfl, fun _ => rfl, rfl, fun out hout => ?_⟩
      simp at hout
    | ok ch =>
      dsimp only
      cases hsr : server_respond_to_handshake w.session ch eph with
      | mk res s' =>
        cases res with
        | error e2 =>
          refine ⟨rfl, fun _ => rfl, rfl, fun out hout => ?_⟩
          simp at hout
        | ok sh =>
          refine ⟨rfl, ?_, rfl, ?_⟩
          · intro hnone
            rw [hnone]
            dsimp only
            cases is_handshake_complete s' <;> simp [hsFired]
          · intro out hout
            dsimp only at hout
            injection hout with hout
            refine ⟨ch, sh, s', rfl, hsr, hout.symm, ?_⟩
            have hph := (server_respond_zeroes w.session s' ch eph sh hsr).2.2
            unfold is_handshake_complete
            rw [hph]
  have hB : ((wrapper_client_finalize w shB).2.2 =
      (match (wrapper_client_finalize w shB).1 with
       | .ok _ =>
         if is_handshake_complete (wrapper_client_finalize w shB).2.1.session then
           hsFired w.on_handshake_complete
         else []
       | .error _ => [])) ∧
      (w.on_handshake_complete = none → (wrapper_client_finalize w shB).2.2 = []) ∧
      ((wrapper_client_finalize { w with on_handshake_complete := none } shB).1 =
        (wrapper_client_finalize w shB).1) := by
    unfold wrapper_client_finalize
    cases hsh : ServerHello.deserialize shB with
    | error e => exact ⟨rfl, fun _ => rfl, rfl⟩
    | ok sh =>
      dsimp only
      cases hcf : client_finalize_handshake w.session sh with
      | mk res s' =>
        cases res with
        | error e2 => exact ⟨rfl, fun _ => rfl, rfl⟩
        | ok u =>
          refine ⟨rfl, ?_, rfl⟩
          intro hnone
          rw [hnone]
          dsimp only
          cases is_handshake_complete s' <;> simp [hsFired]
  exact ⟨hA.1, hB.1, fun h => ⟨hA.2.1 h, hB.2.1 h⟩, hA.2.2.1, hB.2.2, hA.2.2.2⟩

/-- Counterexample to C9 as stated: on a successfully decrypted frame the
wrapper's `decrypt_packet` (the function the claim cites) invokes the
registered opcode handler — the invocation list is `[7]`, not empty. -/
theorem decrypt_packet_no_callbacks_cex :
    (wrapper_decrypt_packet c9wrapper demoFrame).1 = .ok demoPayload ∧
    (wrapper_decrypt_packet c9wrapper demoFrame).2.2 = [7] := by decide

/-- Witness for C1 at concrete key material, payload and callbacks. -/
theorem session_record_roundtrip_witness :
    (∃ f w', wrapper_encrypt_payload
        ⟨clientHS demoSsk demoCEsk demoSEsk, some 9, none, []⟩ demoPayload =
          (.ok f, w') ∧
      (wrapper_decrypt_packet
        ⟨serverHS demoSsk demoCEsk demoSEsk, some 8, some 3, [(2, 7)]⟩ f).1 =
          .ok demoPayload) ∧
    (∃ g w'', wrapper_encrypt_payload
        ⟨serverHS demoSsk demoCEsk demoSEsk, some 8, some 3, [(2, 7)]⟩ demoPayload =
          (.ok g, w'') ∧
      (wrapper_decrypt_packet
        ⟨clientHS demoSsk demoCEsk demoSEsk, some 9, none, []⟩ g).1 =
          .ok demoPayload) := by
  have h := session_record_roundtrip demoSsk demoCEsk demoSEsk demoPayload
    (by decide) (by decide) (by decide) (by decide)
    (some 9) (some 8) none (some 3) [] [(2, 7)]
  exact ⟨h.2.2.2.1, h.2.2.2.2⟩

/-- Witness for C3: a frame carrying counter 5 against expected counter 0
is rejected with `ReplayOrReorder` and the session is unchanged. -/
theorem decrypt_counter_discipline_witness :
    decrypt_packet demoEstS (u64be 5 ++ [0]) = (.error .ReplayOrReorder, demoEstS) :=
  ((decrypt_counter_discipline demoEstS (u64be 5 ++ [0]) [] rfl).2
    (by decide) (by decide)).1

/-- Witness for C4: on a fresh (pre-handshake) client wrapper both record
operations fail with `InvalidState` and change nothing. -/
theorem record_ops_require_handshake_witness :
    wrapper_encrypt_payload (cliW0 demoSsk none none []) demoPayload =
      (.error .InvalidState, cliW0 demoSsk none none []) ∧
    wrapper_decrypt_packet (cliW0 demoSsk none none []) demoFrame =
      (.error .InvalidState, cliW0 demoSsk none none [], []) :=
  (record_ops_require_handshake (cliW0 demoSsk none none []) demoPayload demoFrame).1 rfl

/-- Witness for C6: two successful encrypts take `tx_counter` from 0 to 2,
one successful decrypt takes `rx_counter` from 0 to 1. -/
theorem counter_monotonicity_witness :
    (encryptAll demoEstS [demoPayload, demoPayload]).map (fun s => s.tx_counter) =
      some 2 ∧
    (decryptAll demoEstS [demoFrame]).map (fun s => s.rx_counter) = some 1 := by
  constructor
  · rcases hres : encryptAll demoEstS [demoPayload, demoPayload] with _ | s'
    · exact absurd hres (by decide)
    · have h := (counter_monotonicity demoEstS demoEstS ⟨[], []⟩ ⟨0, [], []⟩ ⟨[], []⟩
        [demoPayload, demoPayload] []).2.2.1 s' hres
      rw [show (some s').map (fun s => s.tx_counter) = some s'.tx_counter from rfl, h]
      rfl
  · rcases hres : decryptAll demoEstS [demoFrame] with _ | s'
    · exact absurd hres (by decide)
    · have h := (counter_monotonicity demoEstS demoEstS ⟨[], []⟩ ⟨0, [], []⟩ ⟨[], []⟩
        [] [demoFrame]).2.2.2 s' hres
      rw [show (some s').map (fun s => s.rx_counter) = some s'.rx_counter from rfl, h]
      rfl

/-- Witness for C10: with no callback registered nothing fires; with
callback token 9 registered the successful server respond fires exactly
`[9]`. -/
theorem handshake_callback_exactly_once_witness :
    (wrapper_server_respond (srvW0 demoSsk none none []) (chBytes demoCEsk)
        ⟨pubOf demoSEsk, demoSEsk⟩).2.2 = [] ∧
    (wrapper_server_respond (srvW0 demoSsk (some 9) none []) (chBytes demoCEsk)
        ⟨pubOf demoSEsk, demoSEsk⟩).2.2 = [9] := by
  constructor
  · exact ((handshake_callback_exactly_once (srvW0 demoSsk none none [])
      (chBytes demoCEsk) [] ⟨pubOf demoSEsk, demoSEsk⟩).2.2.1 rfl).1
  · rw [(handshake_callback_exactly_once (srvW0 demoSsk (some 9) none [])
      (chBytes demoCEsk) [] ⟨pubOf demoSEsk, demoSEsk⟩).1]
    decide

end ObscuraProto
